import Mathlib

/-!
Verification of the novelist narrative-generation engine.

Python strings are modelled as lists of Unicode code points (`PyStr`),
Python ints as `Nat`, JSON files on disk as a `JsonFile` sum
(missing, invalid JSON, or a parsed record list), and exceptions as
`Except`.  Every definition is translated from the corresponding
function in the repository source; the data-model records `Fact` and
`Foreshadowing` live in a module that is not part of the provided
sources and are modelled from the specification.
-/

set_option autoImplicit false

namespace Novelist

/-- A Python string: the sequence of its Unicode code points. -/
abbrev PyStr := List Char

/-- UTF-8 byte length of a Python string (`len(s.encode())`). -/
def byteLen (s : PyStr) : Nat := (s.map Char.utf8Size).sum

/-- One decimal digit as a character. The argument is always below 10
at the call sites (it is a `% 10` remainder or guarded by `< 10`). -/
def digitChar (d : Nat) : Char :=
  match d with
  | 0 => '0'
  | 1 => '1'
  | 2 => '2'
  | 3 => '3'
  | 4 => '4'
  | 5 => '5'
  | 6 => '6'
  | 7 => '7'
  | 8 => '8'
  | 9 => '9'
  | _ => '*'

/-- Decimal rendering of a natural number, fuel-indexed so that it is
structurally recursive.  `digitsOf` supplies fuel that is always
sufficient, so the fuel never runs out on any input. -/
def digitsOfAux : Nat → Nat → List Char
  | 0, n => [digitChar n]
  | fuel + 1, n =>
    if n < 10 then [digitChar n]
    else digitsOfAux fuel (n / 10) ++ [digitChar (n % 10)]

/-- Decimal rendering of a natural number, as Python `str(n)` renders a
non-negative int. -/
def digitsOf (n : Nat) : List Char := digitsOfAux n n

/-- Zero-pad a digit string to width 3, as the Python format spec `03d`
pads a rendered non-negative int. -/
def pad3 (ds : List Char) : List Char := List.replicate (3 - ds.length) '0' ++ ds

/-- Python `format(n, "03d")` for a non-negative int `n`. -/
def fmt03 (n : Nat) : PyStr := pad3 (digitsOf n)

/-- A fact id as assigned by `FactsManager.add_fact`: `f` followed by the
zero-padded number (source: `f"f{len(facts) + 1:03d}"`). -/
def fid (n : Nat) : PyStr := 'f' :: fmt03 n

/-- A foreshadowing id as assigned by
`ForeshadowingManager.plant_foreshadowing`:
`fs` followed by the zero-padded number. -/
def fsid (n : Nat) : PyStr := 'f' :: 's' :: fmt03 n

/-- The chapter tag `f"chapter_{chapter:03d}"` used throughout the
committer and the pipeline. -/
def chapTag (c : Nat) : PyStr := "chapter_".toList ++ fmt03 c

/-- Numeric value of a decimal digit character. -/
def digitVal (c : Char) : Nat := c.toNat - 48

/-- Parse a digit string back to a number (used only in proofs, to show
that id rendering is injective). -/
def decDigits (l : List Char) : Nat := l.foldl (fun a c => a * 10 + digitVal c) 0

theorem digitVal_digitChar (d : Nat) (h : d < 10) : digitVal (digitChar d) = d := by
  interval_cases d <;> rfl

theorem decDigits_aux (fuel : Nat) :
    ∀ n a, n ≤ fuel →
      List.foldl (fun a c => a * 10 + digitVal c) a (digitsOfAux fuel n) =
        a * 10 ^ (digitsOfAux fuel n).length + n := by
  induction fuel with
  | zero =>
    intro n a hn
    interval_cases n
    simp [digitsOfAux, digitVal_digitChar]
  | succ fuel ih =>
    intro n a hn
    by_cases h10 : n < 10
    · simp [digitsOfAux, h10, digitVal_digitChar n h10]
    · have hdiv : n / 10 ≤ fuel := by
        have : n / 10 < n := Nat.div_lt_self (by omega) (by omega)
        omega
      have hmod : n % 10 < 10 := Nat.mod_lt _ (by omega)
      simp only [digitsOfAux, if_neg h10, List.foldl_append, List.length_append,
        List.foldl_cons, List.foldl_nil, List.length_cons, List.length_nil]
      rw [ih (n / 10) a hdiv, digitVal_digitChar _ hmod]
      have hsplit : (a * 10 ^ (digitsOfAux fuel (n / 10)).length + n / 10) * 10 + n % 10 =
          a * (10 ^ (digitsOfAux fuel (n / 10)).length * 10) + (n / 10 * 10 + n % 10) := by
        ring
      rw [hsplit, Nat.mul_comm (n / 10) 10, Nat.div_add_mod]
      ring

theorem decDigits_digitsOf (n : Nat) : decDigits (digitsOf n) = n := by
  have h := decDigits_aux n n 0 (Nat.le_refl n)
  simpa [decDigits, digitsOf] using h

theorem decDigits_pad3 (ds : List Char) : decDigits (pad3 ds) = decDigits ds := by
  unfold pad3 decDigits
  rw [List.foldl_append]
  congr 1
  induction (3 - ds.length) with
  | zero => rfl
  | succ k ih => simpa [List.replicate_succ, digitVal] using ih

theorem fid_injective : Function.Injective fid := by
  intro a b h
  have h2 : pad3 (digitsOf a) = pad3 (digitsOf b) := by
    simpa [fid, fmt03] using h
  have := congrArg decDigits h2
  rwa [decDigits_pad3, decDigits_pad3, decDigits_digitsOf, decDigits_digitsOf] at this

/-- State of a JSON record file on disk: absent, present but not valid
JSON, or a parsed top-level record array. -/
inductive JsonFile (α : Type) where
  | missing
  | invalid
  | valid (records : List α)
deriving DecidableEq

/-- Python exceptions raised by the modelled code paths. -/
inductive PyErr where
  | keyError (k : PyStr)
  | jsonDecodeError
deriving DecidableEq

/-- Modelled from the spec: the `Fact` record of the core data model,
whose defining module is not among the provided sources (only its
importers are).  Fields follow the spec data model:
id, content, category (immutable or variable), source (chapter id),
created_at, tags.  `created_at` is an environment-supplied timestamp
that no modelled computation reads; it is kept as an uninterpreted
string fixed to the empty string by the constructor call sites. -/
structure Fact where
  id : PyStr
  content : PyStr
  category : PyStr
  source : PyStr
  created_at : PyStr
  tags : List PyStr
deriving DecidableEq

namespace FactsManager

/-- The two files owned by `FactsManager`: `memory/facts.json` and
`memory/facts_archive.json`. -/
structure State where
  facts_file : JsonFile Fact
  archive_file : JsonFile Fact
deriving DecidableEq

/-- A fresh project: neither file exists yet. -/
def emptyState : State := ⟨.missing, .missing⟩

/-- `FactsManager.load`: a missing file or a `json.JSONDecodeError` or
`KeyError` yields the empty list (the except clause in the source). -/
def load : JsonFile Fact → List Fact
  | .missing => []
  | .invalid => []
  | .valid fs => fs

/-- `FactsManager.save`: overwrites `memory/facts.json` with the given
record array (the `_meta` header is derived data and carries no extra
state). -/
def save (fs : List Fact) : JsonFile Fact := .valid fs

/-- `FactsManager._archive_facts`: reads the archive file if it exists
(a malformed archive raises `json.JSONDecodeError`, there is no except
clause here), appends the given records and writes the file back. -/
def archive_facts (archive : JsonFile Fact) (fs : List Fact) :
    Except PyErr (JsonFile Fact) :=
  match archive with
  | .invalid => .error .jsonDecodeError
  | .missing => .ok (.valid fs)
  | .valid existing => .ok (.valid (existing ++ fs))

/-- `FactsManager.add_fact`.  The Python slices `facts[:-max_facts]` and
`facts[-max_facts:]` are translated with `take` and `drop`; the
translation agrees with Python for `1 ≤ max_facts`, which covers every
call site (the constructor default is 50 and the claims assume at least
1).  The Python defaults are `category="immutable"`, `tags=None`, which
the call sites of this model pass explicitly. -/
def add_fact (maxFacts : Nat) (st : State) (content source category : PyStr)
    (tags : List PyStr) : Except PyErr (State × PyStr) :=
  let facts := load st.facts_file
  let fact_id := fid (facts.length + 1)
  let fact : Fact := ⟨fact_id, content, category, source, [], tags⟩
  let facts := facts ++ [fact]
  if facts.length > maxFacts then
    let archived := facts.take (facts.length - maxFacts)
    match archive_facts st.archive_file archived with
    | .error e => .error e
    | .ok arch => .ok (⟨save (facts.drop (facts.length - maxFacts)), arch⟩, fact_id)
  else
    .ok (⟨save facts, st.archive_file⟩, fact_id)

/-- Run a sequence of `add_fact` calls (content, source pairs, with the
Python default category and tags), stopping at the first exception. -/
def run_adds (maxFacts : Nat) (st : State) : List (PyStr × PyStr) → Except PyErr State
  | [] => .ok st
  | (c, s) :: rest =>
    match add_fact maxFacts st c s "immutable".toList [] with
    | .error e => .error e
    | .ok (st2, _) => run_adds maxFacts st2 rest

/-- Extract the final state of an `add_fact` sequence (the error case is
never reached at the concrete inputs where this is used). -/
def stateAfter (r : Except PyErr State) : State :=
  match r with
  | .ok st => st
  | .error _ => emptyState

end FactsManager

/-- Modelled from the spec: the `Foreshadowing` record of the core data
model, whose defining module is not among the provided sources.  Fields
follow the spec data model; `resolution_chapter` and `resolution_note`
are optional and absent when an entry is planted. -/
structure Foreshadowing where
  id : PyStr
  content : PyStr
  status : PyStr
  created_in : PyStr
  target_resolution : Option PyStr
  related_chapters : List PyStr
  resolution_chapter : Option PyStr
  resolution_note : Option PyStr
  priority : PyStr
  tags : List PyStr
deriving DecidableEq

/-- Python `a or b` on an optional string: `None` and the empty string
are falsy, so both fall through to the default. -/
def pyOr (o : Option PyStr) (dflt : PyStr) : PyStr :=
  match o with
  | none => dflt
  | some s => if s = [] then dflt else s

namespace ForeshadowingManager

/-- `ForeshadowingManager.load` for `memory/foreshadow.json`: a missing
file or a `json.JSONDecodeError` or `KeyError` yields the empty list. -/
def load : JsonFile Foreshadowing → List Foreshadowing
  | .missing => []
  | .invalid => []
  | .valid fs => fs

/-- `ForeshadowingManager.save`: overwrites the file (the `_meta` stats
are derived data). -/
def save (fs : List Foreshadowing) : JsonFile Foreshadowing := .valid fs

/-- `ForeshadowingManager.plant_foreshadowing`: appends a fresh
`unresolved` record and returns its id.  The Python defaults are
`target_chapter=None`, `priority="medium"`, `tags=None`; call sites of
this model pass them explicitly. -/
def plant_foreshadowing (file : JsonFile Foreshadowing) (content chapter : PyStr)
    (target : Option PyStr) (priority : PyStr) (tags : List PyStr) :
    JsonFile Foreshadowing × PyStr :=
  let fss := load file
  let fs_id := fsid (fss.length + 1)
  let fs : Foreshadowing :=
    ⟨fs_id, content, "unresolved".toList, chapter, target, [chapter], none, none,
      priority, tags⟩
  (save (fss ++ [fs]), fs_id)

/-- The loop body of `resolve_foreshadowing`: mutate the first record
with the matching id (the loop breaks after the first hit) and leave the
rest untouched.  There is no check of the current status. -/
def resolve_list (fs_id chapter : PyStr) (note : Option PyStr) :
    List Foreshadowing → List Foreshadowing
  | [] => []
  | f :: rest =>
    if f.id = fs_id then
      { f with
        status := "resolved".toList
        resolution_chapter := some chapter
        resolution_note := some (pyOr note [])
        related_chapters :=
          if chapter ∈ f.related_chapters then f.related_chapters
          else f.related_chapters ++ [chapter] } :: rest
    else f :: resolve_list fs_id chapter note rest

/-- `ForeshadowingManager.resolve_foreshadowing` (note default `None`). -/
def resolve_foreshadowing (file : JsonFile Foreshadowing) (fs_id chapter : PyStr)
    (note : Option PyStr) : JsonFile Foreshadowing :=
  save (resolve_list fs_id chapter note (load file))

/-- The loop body of `abandon_foreshadowing`: first matching record gets
status `abandoned`; no check of the current status, and
`related_chapters` is not touched. -/
def abandon_list (fs_id chapter : PyStr) (reason : Option PyStr) :
    List Foreshadowing → List Foreshadowing
  | [] => []
  | f :: rest =>
    if f.id = fs_id then
      { f with
        status := "abandoned".toList
        resolution_chapter := some chapter
        resolution_note := some (pyOr reason "Abandoned".toList) } :: rest
    else f :: abandon_list fs_id chapter reason rest

/-- `ForeshadowingManager.abandon_foreshadowing` (reason default `None`). -/
def abandon_foreshadowing (file : JsonFile Foreshadowing) (fs_id chapter : PyStr)
    (reason : Option PyStr) : JsonFile Foreshadowing :=
  save (abandon_list fs_id chapter reason (load file))

/-- One public mutation of the foreshadowing store. -/
inductive Op where
  | plant (content chapter : PyStr) (target : Option PyStr) (priority : PyStr)
      (tags : List PyStr)
  | resolve (fs_id chapter : PyStr) (note : Option PyStr)
  | abandon (fs_id chapter : PyStr) (reason : Option PyStr)

/-- Apply one mutation (discarding the id returned by plant). -/
def apply_op (file : JsonFile Foreshadowing) : Op → JsonFile Foreshadowing
  | .plant c ch t p tg => (plant_foreshadowing file c ch t p tg).1
  | .resolve i ch n => resolve_foreshadowing file i ch n
  | .abandon i ch r => abandon_foreshadowing file i ch r

/-- Apply a sequence of mutations in order. -/
def run_ops (file : JsonFile Foreshadowing) (ops : List Op) : JsonFile Foreshadowing :=
  ops.foldl apply_op file

end ForeshadowingManager

/-- Python `"\n".join(lines)`. -/
def joinNL : List PyStr → PyStr
  | [] => []
  | [l] => l
  | l :: l2 :: ls => l ++ '\n' :: joinNL (l2 :: ls)

/-- Python `", ".join(items)`. -/
def joinCommaSpace : List PyStr → PyStr
  | [] => []
  | [l] => l
  | l :: l2 :: ls => l ++ ',' :: ' ' :: joinCommaSpace (l2 :: ls)

/-- Python `s.split("\n")`. -/
def splitNL : PyStr → List PyStr
  | [] => [[]]
  | c :: rest =>
    if c = '\n' then [] :: splitNL rest
    else
      match splitNL rest with
      | p :: ps => (c :: p) :: ps
      | [] => [[c]]

/-- Python `s.strip()` (whitespace is modelled by `Char.isWhitespace`). -/
def pyStrip (s : PyStr) : PyStr :=
  ((s.dropWhile Char.isWhitespace).reverse.dropWhile Char.isWhitespace).reverse

namespace EpisodicMemoryManager

/-- The scene-header text of the trim regex after the newline
(`### Scene ` with the trailing space). -/
def sceneHead : PyStr := "### Scene ".toList

/-- Whether the regex separator `\n### Scene \d` matches at the head of
`s` (the `\d` is the first of a greedy digit run, consumed separately).
`\d` is modelled as an ASCII digit; the scene numbers written by the
manager itself are always ASCII. -/
def sepAt (s : List Char) : Bool :=
  match s with
  | c :: rest =>
    (c = '\n' : Bool) && sceneHead.isPrefixOf rest &&
      (match rest.drop 10 with
       | c2 :: _ => c2.isDigit
       | [] => false)
  | [] => false

/-- Index of the first match of the separator regex, if any. -/
def findSep : List Char → Option Nat
  | [] => none
  | c :: cs => if sepAt (c :: cs) then some 0 else (findSep cs).map (· + 1)

/-- Length of the greedy digit run `\d+` at the head of `s`. -/
def digitRun : List Char → Nat
  | [] => 0
  | c :: cs => if c.isDigit then digitRun cs + 1 else 0

/-- `re.split(r"\n### Scene \d+", content)`, fuel-indexed so that it is
structurally recursive.  Each match consumes at least 12 characters, so
fuel equal to the length of the input never runs out. -/
def splitScenesAux : Nat → List Char → List (List Char)
  | 0, s => [s]
  | fuel + 1, s =>
    match findSep s with
    | none => [s]
    | some i =>
      let rest := s.drop (i + 11)
      s.take i :: splitScenesAux fuel (rest.drop (digitRun rest))

/-- `re.split(r"\n### Scene \d+", content)` as used by `_trim_scenes`. -/
def splitScenes (s : List Char) : List (List Char) := splitScenesAux s.length s

/-- `EpisodicMemoryManager._trim_scenes`.  The Python slice
`scenes[-max_scenes:]` is translated with `drop`, which agrees with
Python for `1 ≤ max_scenes` (the constructor default is 5). -/
def trim_scenes (maxScenes : Nat) (content : PyStr) : PyStr :=
  if (splitScenes content).length ≤ maxScenes + 1 then content
  else
    (List.enumFrom ((splitScenes content).length - maxScenes)
        ((splitScenes content).drop ((splitScenes content).length - maxScenes))).foldl
      (fun acc p =>
        if pyStrip p.2 ≠ [] then acc ++ '\n' :: sceneHead ++ digitsOf p.1 ++ p.2
        else acc)
      ((splitScenes content).headD [])

/-- The header line `f"### Scene {scene} (Chapter {chapter})"`. -/
def sceneHeader (chapter scene : Nat) : PyStr :=
  sceneHead ++ digitsOf scene ++ " (Chapter ".toList ++ digitsOf chapter ++ ")".toList

/-- `EpisodicMemoryManager.add_scene_summary`.  The file content is the
state (a missing file loads as the empty string); `ts` is the
environment-supplied `datetime.now()` timestamp string.  Python treats
both `None` and the empty list as falsy for `key_events`, so the
optional list is modelled as a plain list whose empty value skips the
Events line. -/
def add_scene_summary (maxScenes : Nat) (doc : PyStr) (chapter scene : Nat)
    (summary : PyStr) (pov_character : Option PyStr) (key_events : List PyStr)
    (ts : PyStr) : PyStr :=
  let lines := [sceneHeader chapter scene, "**Time**: ".toList ++ ts]
  let lines := lines ++
    (match pov_character with
     | some p => ["**POV**: ".toList ++ p]
     | none => [])
  let lines := lines ++
    (if key_events ≠ [] then ["**Events**: ".toList ++ joinCommaSpace key_events]
     else [])
  let lines := lines ++ [[], summary, [], "---".toList, []]
  let new_entry := joinNL lines
  let updated := if doc ≠ [] then new_entry ++ '\n' :: doc else new_entry
  trim_scenes maxScenes updated

/-- The header prefix tested by `get_recent_summary`
(`line.startswith("### Scene")`, without the trailing space). -/
def sceneHead9 : PyStr := "### Scene".toList

/-- The line loop of `get_recent_summary`: collect header lines and the
lines of each summary body up to the `---` rule. -/
def grsLoop : List PyStr → Bool → List PyStr
  | [], _ => []
  | l :: rest, inSummary =>
    if sceneHead9.isPrefixOf l then l :: grsLoop rest true
    else if inSummary ∧ "---".toList.isPrefixOf l then [] :: grsLoop rest false
    else if inSummary then l :: grsLoop rest true
    else grsLoop rest inSummary

/-- The summary text extracted by `get_recent_summary` before the
truncation step. -/
def grsExtract (content : PyStr) : PyStr :=
  joinNL (grsLoop (splitNL content) false)

/-- `EpisodicMemoryManager.get_recent_summary` (the Python default for
`max_chars` is 800; the assembler budget default for the recap block is
400). -/
def get_recent_summary (content : PyStr) (maxChars : Nat) : PyStr :=
  if (grsExtract content).length > maxChars then
    (grsExtract content).take maxChars ++ "...".toList
  else grsExtract content

/-- Number of scene blocks of an episodic document: lines that match
`### Scene \d` at the start of the document or right after a newline
(the block count induced by the trim regex). -/
def countBlocksAux : List Char → Bool → Nat
  | [], _ => 0
  | c :: cs, atLineStart =>
    (if atLineStart &&
        (sceneHead.isPrefixOf (c :: cs) &&
          (match (c :: cs).drop 10 with
           | d :: _ => d.isDigit
           | [] => false)) then 1 else 0) +
      countBlocksAux cs (c == '\n')

/-- Number of scene blocks of an episodic document. -/
def countBlocks (s : PyStr) : Nat := countBlocksAux s true

end EpisodicMemoryManager

/-- `SimpleSummarizer` sentence-ender class `[。！？\.\!\?]`. -/
def isEnder (c : Char) : Bool :=
  c = '。' || c = '！' || c = '？' || c = '.' || c = '!' || c = '?'

/-- `re.split(r"[。！？\.\!\?]\s*", text)`: split at each ender character
together with the greedy whitespace run that follows it.  Fuel-indexed
structural recursion; fuel equal to the input length never runs out. -/
def sentSplitAux : Nat → List Char → List (List Char)
  | 0, _ => [[]]
  | fuel + 1, s =>
    match s with
    | [] => [[]]
    | c :: rest =>
      if isEnder c then [] :: sentSplitAux fuel (rest.dropWhile Char.isWhitespace)
      else
        match sentSplitAux fuel rest with
        | p :: ps => (c :: p) :: ps
        | [] => [[c]]

/-- The sentence split used by `SimpleSummarizer.summarize`. -/
def sentSplit (s : PyStr) : List PyStr := sentSplitAux s.length s

/-- `SimpleSummarizer.summarize(text, max_sentences)`: extractive
first/middle/last sentence summary; falls back to the first 200
characters when no sentence survives the length filter.  The Python
`sorted(set(indices))` is modelled by `dedup` of the already
nondecreasing index list. -/
def summarize (text : PyStr) (maxSentences : Nat) : PyStr :=
  let sentences := (sentSplit text).filterMap
    (fun s => let t := pyStrip s; if t.length > 10 then some t else none)
  if sentences.isEmpty then text.take 200
  else
    let n := sentences.length
    let indices := ([0, n / 2, n - 1].dedup).take maxSentences
    ((indices.filter (· < n)).map (fun i => sentences.getD i [] ++ ['。'])).flatten

namespace FactsManager

/-- The loop of `get_facts_for_context`: add bullet lines while the
running character total stays within the budget; on the first overflow
append the `...` line and stop.  The second component records whether
the list was cut. -/
def gffcLoop (maxChars : Nat) : List Fact → List PyStr → Nat → (List PyStr × Bool)
  | [], lines, _ => (lines, false)
  | f :: rest, lines, currentLen =>
    if currentLen + ('-' :: ' ' :: f.content).length > maxChars then
      (lines ++ ["...".toList], true)
    else gffcLoop maxChars rest (lines ++ ['-' :: ' ' :: f.content])
      (currentLen + ('-' :: ' ' :: f.content).length + 1)

/-- `FactsManager.get_facts_for_context` (Python default
`max_chars=600`), applied to the loaded fact list. -/
def get_facts_for_context (facts : List Fact) (maxChars : Nat) : PyStr :=
  joinNL (gffcLoop maxChars facts ["## Facts（確定事実）".toList, []]
    (joinNL ["## Facts（確定事実）".toList, []]).length).1

/-- The suffix alternation `(?:である|だった|である|で|に|を)` of the fact
extraction regex, tried in source order. -/
def factSuffixes : List PyStr :=
  ["である".toList, "だった".toList, "である".toList, "で".toList, "に".toList,
    "を".toList]

/-- Length of the first alternative of the suffix alternation that
matches at the head of `s`, if any. -/
def tryFactSuffix (s : List Char) : Option Nat :=
  (factSuffixes.find? (fun a => a.isPrefixOf s)).map List.length

/-- The lazy scan of the second group `([^。]+?)` followed by the suffix
alternation: consume at least one character that is not `。`, testing the
alternation after each consumed character, shortest match first.
Returns the group and the remainder after the whole match. -/
def g2Scan : Nat → List Char → List Char → Option (PyStr × List Char)
  | 0, _, _ => none
  | fuel + 1, acc, s =>
    match s with
    | [] => none
    | c :: rest =>
      if c = '。' then none
      else
        let acc2 := acc ++ [c]
        match tryFactSuffix rest with
        | some m => some (acc2, rest.drop m)
        | none => g2Scan fuel acc2 rest

/-- The lazy scan of the first group `([^。]+?)` followed by `(?:は|が)`
and the second-group scan, with regex backtracking order: shortest first
group first, extending it whenever the rest of the pattern fails. -/
def g1Scan : Nat → List Char → List Char → Option (PyStr × PyStr × List Char)
  | 0, _, _ => none
  | fuel + 1, acc, s =>
    match s with
    | [] => none
    | c :: rest =>
      if c = '。' then none
      else
        let acc2 := acc ++ [c]
        match rest with
        | [] => none
        | sep :: rest2 =>
          if sep = 'は' ∨ sep = 'が' then
            match g2Scan rest2.length [] rest2 with
            | some (g2, rem) => some (acc2, g2, rem)
            | none => g1Scan fuel acc2 rest
          else g1Scan fuel acc2 rest

/-- `re.findall` for the fact extraction pattern: scan left to right,
taking non-overlapping matches and resuming after each match. -/
def factFindall : Nat → List Char → List (PyStr × PyStr)
  | 0, _ => []
  | fuel + 1, s =>
    match s with
    | [] => []
    | _ :: rest =>
      match g1Scan s.length [] s with
      | some (g1, g2, rem) => (g1, g2) :: factFindall fuel rem
      | none => factFindall fuel rest

/-- `FactsManager.extract_facts_from_text`: regex extraction of
declarative sentence shapes.  The `chapter` argument is unused in the
source body and is kept for signature fidelity. -/
def extract_facts_from_text (text : PyStr) (chapter : PyStr) : List PyStr :=
  let _ := chapter
  let found := factFindall text.length text
  let extracted := found.filterMap (fun m =>
    let fact := m.1 ++ 'は' :: m.2
    if 10 < fact.length ∧ fact.length < 100 ∧ '「' ∉ fact then some fact else none)
  extracted.take 5

end FactsManager

/-- A JSON value appearing in a SceneSpec directive list: the committer
only distinguishes strings (`isinstance(x, str)`) from everything
else. -/
inductive JVal where
  | str (s : PyStr)
  | nonstr
deriving DecidableEq

/-- The projections of one SceneSpec section object that the committer
and the pipeline read (each with its `.get` default). -/
structure SpecSection where
  key_events : List PyStr
  pov_character : Option PyStr
  foreshadowing_to_resolve : List JVal
  foreshadowing_to_plant : List JVal
deriving DecidableEq

/-- A parsed SceneSpec JSON object: an association of section names to
section objects (Python dict keys are unique and ordered; only lookups
are performed on it). -/
abbrev SceneSpec := List (PyStr × SpecSection)

/-- First-match association lookup (Python dict subscript / `in` /
`.get`). -/
def assocFind {κ α : Type} [DecidableEq κ] : List (κ × α) → κ → Option α
  | [], _ => none
  | (k, v) :: rest, key => if k = key then some v else assocFind rest key

namespace CommitterAgent

/-- The memory files owned by the committer's three managers. -/
structure MemState where
  episodic : PyStr
  facts : FactsManager.State
  foreshadow : JsonFile Foreshadowing
deriving DecidableEq

/-- The commit report dict returned by `CommitterAgent.commit`. -/
structure CommitReport where
  chapter : Nat
  scene : Nat
  episodic_updated : Bool
  facts_added : List PyStr
  foreshadowing_resolved : List PyStr
  foreshadowing_planted : List PyStr
deriving DecidableEq

/-- The fact-extraction loop of `commit`: add each extracted content as
a fact; an exception escapes with the facts state reached so far. -/
def add_fact_loop (maxFacts : Nat) (st : FactsManager.State) (chTag : PyStr) :
    List PyStr → Except (PyErr × FactsManager.State) (FactsManager.State × List PyStr)
  | [] => .ok (st, [])
  | c :: rest =>
    match FactsManager.add_fact maxFacts st c chTag "immutable".toList [] with
    | .error e => .error (e, st)
    | .ok (st2, fact_id) =>
      match add_fact_loop maxFacts st2 chTag rest with
      | .error e2 => .error e2
      | .ok (st3, ids) => .ok (st3, fact_id :: ids)

/-- Step 3 of `commit`: the SceneSpec-driven foreshadowing transitions.
Every string id in `continuity.foreshadowing_to_resolve` is resolved at
the chapter tag, then every string in
`continuity.foreshadowing_to_plant` is planted there (with the plant
defaults).  Returns the store together with the resolved and planted id
lists of the report. -/
def apply_continuity (file : JsonFile Foreshadowing) (spec : SceneSpec)
    (tag : PyStr) : JsonFile Foreshadowing × List PyStr × List PyStr :=
  match assocFind spec "continuity".toList with
  | none => (file, [], [])
  | some sec =>
    let resolved := sec.foreshadowing_to_resolve.foldl
      (fun (p : JsonFile Foreshadowing × List PyStr) v =>
        match v with
        | .str i => (ForeshadowingManager.resolve_foreshadowing p.1 i tag none,
            p.2 ++ [i])
        | .nonstr => p)
      (file, [])
    let planted := sec.foreshadowing_to_plant.foldl
      (fun (p : JsonFile Foreshadowing × List PyStr) v =>
        match v with
        | .str c =>
          let r := ForeshadowingManager.plant_foreshadowing p.1 c tag none
            "medium".toList []
          (r.1, p.2 ++ [r.2])
        | .nonstr => p)
      (resolved.1, [])
    (planted.1, resolved.2, planted.2)

/-- The `key_events` extraction of `commit`: the presence test reads the
key `narrative`, but the subscript reads the misspelled key `narrary`
and raises `KeyError` when it is absent. -/
def key_events_of (scenespec : Option SceneSpec) : Except PyErr (List PyStr) :=
  match scenespec with
  | none => .ok []
  | some d =>
    if (assocFind d "narrative".toList).isSome then
      match assocFind d "narrary".toList with
      | some sec => .ok sec.key_events
      | none => .error (.keyError "narrary".toList)
    else .ok []

/-- The `pov` extraction of `commit` from the `constraints` section. -/
def pov_of (scenespec : Option SceneSpec) : Option PyStr :=
  match scenespec with
  | none => none
  | some d =>
    match assocFind d "constraints".toList with
    | some sec => sec.pov_character
    | none => none

/-- `CommitterAgent.commit` with `use_llm_extraction=False` (the only
form the pipeline calls).  The committer constructs its managers with
their defaults, so `max_scenes=5` and `max_facts=50` here.  The scene
summary is computed first; then the `key_events` extraction raises
`KeyError` whenever `narrative` is present and `narrary` is not, before
any memory is written.  An escaping exception carries the memory state
at the point it was raised. -/
def commit (mem : MemState) (text : PyStr) (chapter scene : Nat)
    (scenespec : Option SceneSpec) (ts : PyStr) :
    Except (PyErr × MemState) (MemState × CommitReport) :=
  let summary := summarize text 3
  match key_events_of scenespec with
  | .error e => .error (e, mem)
  | .ok key_events =>
    let pov := pov_of scenespec
    let episodic2 := EpisodicMemoryManager.add_scene_summary 5 mem.episodic chapter
      scene summary pov key_events ts
    let extracted := FactsManager.extract_facts_from_text text (chapTag chapter)
    match add_fact_loop 50 mem.facts (chapTag chapter) extracted with
    | .error (e, factsPartial) => .error (e, ⟨episodic2, factsPartial, mem.foreshadow⟩)
    | .ok (facts2, fact_ids) =>
      let cont :=
        match scenespec with
        | none => (mem.foreshadow, ([] : List PyStr), ([] : List PyStr))
        | some d => apply_continuity mem.foreshadow d (chapTag chapter)
      .ok (⟨episodic2, facts2, cont.1⟩,
        ⟨chapter, scene, true, fact_ids, cont.2.1, cont.2.2⟩)

end CommitterAgent

namespace SwarmPipeline

/-- A checker issue (the fields of the `Issue` dataclass that the
pipeline reads). -/
structure Issue where
  category : PyStr
  severity : PyStr
  description : PyStr
deriving DecidableEq

/-- The issue dict handed to the editor by the pipeline. -/
structure IssueDict where
  category : PyStr
  description : PyStr
  severity : PyStr
deriving DecidableEq

/-- The project state touched after the checker stage: the committer's
memory files, the chapter files and the session scene counter. -/
structure ProjState where
  mem : CommitterAgent.MemState
  chapters : List (Nat × PyStr)
  current_scene : Nat
deriving DecidableEq

/-- `ChapterManager.save_chapter`: write (or overwrite) the chapter
file. -/
def assocSet : List (Nat × PyStr) → Nat → PyStr → List (Nat × PyStr)
  | [], c, t => [(c, t)]
  | (k, v) :: rest, c, t =>
    if k = c then (c, t) :: rest else (k, v) :: assocSet rest c t

/-- Chapter file lookup. -/
def assocGet : List (Nat × PyStr) → Nat → Option PyStr
  | [], _ => none
  | (k, v) :: rest, c => if k = c then some v else assocGet rest c

/-- An externally visible effect of the commit-and-persist tail of
`generate_scene`, recorded at the source line that performs it. -/
inductive Ev where
  | commit_memory
  | write_chapter (chapter : Nat)
  | advance_scene
deriving DecidableEq

/-- How one `generate_scene` run ends: the trace dict is returned, or a
writer or committer exception propagates, leaving the given project
state behind. -/
inductive Outcome where
  | ok (st : ProjState) (report : CommitterAgent.CommitReport)
  | writer_failed (st : ProjState)
  | commit_failed (e : PyErr) (st : ProjState)
deriving DecidableEq

/-- An instrumented run of `generate_scene`: the outcome plus the text
after stage 4, the editor invocations (input text and issue dicts), the
number of checker invocations, and the effect order of the tail. -/
structure RunTrace where
  outcome : Outcome
  text_after_stage4 : Option PyStr
  editor_calls : List (PyStr × List IssueDict)
  checker_calls : Nat
  events : List Ev
deriving DecidableEq

/-- The `issue_dicts` list built in stage 4: issues of severity `error`
or `warning`, each converted to a dict. -/
def errWarnDicts (issues : List Issue) : List IssueDict :=
  (issues.filter
    (fun i => i.severity = "error".toList ∨ i.severity = "warning".toList)).map
    (fun i => ⟨i.category, i.description, i.severity⟩)

/-- Stage 4 of `generate_scene`: when revision applies (non-empty issue
list, revision enabled) and at least one issue has severity `error` or
`warning`, invoke the editor once on the current text.  Returns the text
after the stage, the `revision_made` flag, and the editor invocations
(input text and issue dicts). -/
def stage4 (enable_revision : Bool) (wtext : PyStr) (issues : List Issue)
    (edit : PyStr → List IssueDict → PyStr) :
    PyStr × Bool × List (PyStr × List IssueDict) :=
  if issues ≠ [] ∧ enable_revision = true ∧ issues.length > 0 then
    let issue_dicts := errWarnDicts issues
    if issue_dicts ≠ [] then (edit wtext issue_dicts, true, [(wtext, issue_dicts)])
    else (wtext, false, [])
  else (wtext, false, [])

/-- `SwarmPipeline.generate_scene` from stage 2 on.  Stage 1 (director
call and `json.loads`) is environment input and enters as the parsed
`scenespec`; the writer result and the checker issue list are likewise
environment inputs consumed exactly once; `edit` is the editor agent.
Cost logging, console printing and the timing fields of the trace are
omitted; a writer exception (`GenerationError`) propagates before the
checker runs, and a committer exception propagates before the chapter
file is written and before the scene counter is advanced. -/
def generate_scene (enable_revision : Bool) (st : ProjState) (chapter scene : Nat)
    (scenespec : SceneSpec) (writer : Except Unit PyStr) (issues : List Issue)
    (edit : PyStr → List IssueDict → PyStr) (ts : PyStr) : RunTrace :=
  match writer with
  | .error _ => ⟨.writer_failed st, none, [], 0, []⟩
  | .ok wtext =>
    let s4 := stage4 enable_revision wtext issues edit
    let text := s4.1
    match CommitterAgent.commit st.mem text chapter scene (some scenespec) ts with
    | .error (e, mem2) =>
      ⟨.commit_failed e ⟨mem2, st.chapters, st.current_scene⟩, some text,
        s4.2.2, 1, []⟩
    | .ok (mem2, report) =>
      ⟨.ok ⟨mem2, assocSet st.chapters chapter text, scene + 1⟩ report, some text,
        s4.2.2, 1, [.commit_memory, .write_chapter chapter, .advance_scene]⟩

/-- The state carried by an `ok` outcome (used by concrete witnesses). -/
def okState : Outcome → ProjState
  | .ok st _ => st
  | .writer_failed st => st
  | .commit_failed _ st => st

/-- The report carried by an `ok` outcome (used by concrete witnesses). -/
def okReport : Outcome → CommitterAgent.CommitReport
  | .ok _ r => r
  | _ => ⟨0, 0, false, [], [], []⟩

end SwarmPipeline

namespace SimpleEmbedding

/-- `SimpleEmbedding._tokenize`: lowercase the text and keep the
characters that are alphanumeric or CJK (U+4E00 to U+9FFF).  The
per-character Unicode predicates `str.isalnum` and `str.lower` of Python
enter as the parameters `alnum` and `lower`. -/
def tokenize (alnum : Char → Bool) (lower : Char → Char) (text : PyStr) :
    List Char :=
  (text.map lower).filter
    (fun c => alnum c || (decide ('一' ≤ c) && decide (c ≤ '鿿')))

/-- `d[t] = d.get(t, 0) + 1` on a Python dict: an existing key keeps its
position, a new key is appended (insertion order). -/
def bump (m : List (Char × Nat)) (t : Char) : List (Char × Nat) :=
  match m with
  | [] => [(t, 1)]
  | (k, v) :: rest => if k = t then (k, v + 1) :: rest else (k, v) :: bump rest t

/-- The `word_freq` dict of `_build_vocab`: total term counts over the
corpus. -/
def word_freq (alnum : Char → Bool) (lower : Char → Char) (docs : List PyStr) :
    List (Char × Nat) :=
  docs.foldl (fun m d => (tokenize alnum lower d).foldl bump m) []

/-- The `doc_freq` dict of `_build_vocab`: document counts, bumping each
distinct token of a document once (`set(tokens)` is modelled by
`dedup`; only the counts matter, not the set iteration order). -/
def doc_freq (alnum : Char → Bool) (lower : Char → Char) (docs : List PyStr) :
    List (Char × Nat) :=
  docs.foldl (fun m d => ((tokenize alnum lower d).dedup).foldl bump m) []

/-- Stable insertion step for descending sort by count. -/
def insDesc (x : Char × Nat) : List (Char × Nat) → List (Char × Nat)
  | [] => [x]
  | y :: ys => if x.2 ≥ y.2 then x :: y :: ys else y :: insDesc x ys

/-- `sorted(word_freq.items(), key=lambda x: x[1], reverse=True)`:
stable descending sort by count. -/
def sortDesc : List (Char × Nat) → List (Char × Nat)
  | [] => []
  | x :: xs => insDesc x (sortDesc xs)

/-- The fitted vocabulary of `_build_vocab`: the words of the top
`vocab_size` entries, in order (the enumeration index of a word is its
position in this list). -/
def build_vocab (alnum : Char → Bool) (lower : Char → Char) (vocabSize : Nat)
    (docs : List PyStr) : List Char :=
  ((sortDesc (word_freq alnum lower docs)).take vocabSize).map (·.1)

/-- The IDF weight `np.log(doc_count / (df + 1)) + 1`, over the reals
(floating point is modelled by exact real arithmetic). -/
noncomputable def idf_val (n df : Nat) : ℝ :=
  Real.log ((n : ℝ) / ((df : ℝ) + 1)) + 1

/-- The `idf` dict of `_build_vocab`: one entry per in-vocabulary word
of `doc_freq`. -/
noncomputable def idf_list (vocab : List Char) (n : Nat)
    (dfm : List (Char × Nat)) : List (Char × ℝ) :=
  dfm.filterMap (fun p => if p.1 ∈ vocab then some (p.1, idf_val n p.2) else none)

/-- `self.idf.get(token, 1.0)`. -/
noncomputable def weight (idf : List (Char × ℝ)) (t : Char) : ℝ :=
  (assocFind idf t).getD 1

/-- A numpy vector: its length and its entries. -/
abbrev EmbVec : Type := Nat × (Nat → ℝ)

/-- One iteration of the accumulation loop of `embed`:
`vector[self.vocab[token]] += self.idf.get(token, 1.0)` for an
in-vocabulary token, no-op otherwise. -/
noncomputable def vecStep (vocab : List Char) (idf : List (Char × ℝ))
    (v : Nat → ℝ) (t : Char) : Nat → ℝ :=
  if t ∈ vocab then
    Function.update v (vocab.indexOf t) (v (vocab.indexOf t) + weight idf t)
  else v

/-- The accumulation loop of `embed`: start from `np.zeros(len(vocab))`
and add the IDF weight of every in-vocabulary token at the index the
vocabulary assigns to it. -/
noncomputable def raw_vec (vocab : List Char) (idf : List (Char × ℝ))
    (tokens : List Char) : Nat → ℝ :=
  tokens.foldl (vecStep vocab idf) (fun _ => 0)

/-- Sum of squared entries of a vector of the given length. -/
noncomputable def sum_sq (len : Nat) (v : Nat → ℝ) : ℝ :=
  ∑ i ∈ Finset.range len, v i ^ 2

/-- `np.linalg.norm`: the L2 norm. -/
noncomputable def l2norm (len : Nat) (v : Nat → ℝ) : ℝ :=
  Real.sqrt (sum_sq len v)

/-- The L2 norm of a numpy vector. -/
noncomputable def normOf (v : EmbVec) : ℝ := l2norm v.1 v.2

/-- `SimpleEmbedding.embed`: accumulate IDF weights, then L2-normalize
when the norm is positive (`if norm > 0: vector = vector / norm`). -/
noncomputable def embed (alnum : Char → Bool) (lower : Char → Char)
    (vocab : List Char) (idf : List (Char × ℝ)) (text : PyStr) : EmbVec :=
  if 0 < l2norm vocab.length (raw_vec vocab idf (tokenize alnum lower text)) then
    (vocab.length, fun i =>
      raw_vec vocab idf (tokenize alnum lower text) i /
        l2norm vocab.length (raw_vec vocab idf (tokenize alnum lower text)))
  else (vocab.length, raw_vec vocab idf (tokenize alnum lower text))

/-- The fitted state of a `SimpleEmbedding`. -/
structure EmbedderState where
  vocab_size : Nat
  vocab : List Char
  idf : List (Char × ℝ)
  doc_count : Nat

/-- `SimpleEmbedding.fit`: set `_doc_count` and build vocabulary and
IDF table. -/
noncomputable def fit (alnum : Char → Bool) (lower : Char → Char)
    (vocabSize : Nat) (docs : List PyStr) : EmbedderState :=
  ⟨vocabSize, build_vocab alnum lower vocabSize docs,
    idf_list (build_vocab alnum lower vocabSize docs) docs.length
      (doc_freq alnum lower docs),
    docs.length⟩

end SimpleEmbedding

namespace SimpleRetriever

open SimpleEmbedding

/-- A retrievable document chunk (the `Document` dataclass; `metadata`
carries no behaviour and is omitted). -/
structure Document where
  id : PyStr
  content : PyStr
  source : PyStr
  doc_type : PyStr
  embedding : Option EmbVec

/-- The in-memory state of a `SimpleRetriever`. -/
structure RetrieverState where
  documents : List Document
  embedder : EmbedderState
  fitted : Bool

/-- `SimpleRetriever.build`: an empty store returns unchanged;
otherwise fit the embedder on the stored contents and embed every
stored document. -/
noncomputable def build (alnum : Char → Bool) (lower : Char → Char)
    (st : RetrieverState) : RetrieverState :=
  if st.documents.isEmpty then st
  else
    let contents := st.documents.map (·.content)
    let emb := fit alnum lower st.embedder.vocab_size contents
    ⟨st.documents.map (fun d =>
        ⟨d.id, d.content, d.source, d.doc_type,
          some (embed alnum lower emb.vocab emb.idf d.content)⟩),
      emb, true⟩

end SimpleRetriever

/-! ## Supporting lemmas and concrete inputs for the claims -/

/-- Sequential `add_fact` calls that stay within `max_facts` never touch
the archive and assign the ids `fid (k+1), fid (k+2), …` in array
order, continuing from the `k` facts already stored. -/
theorem run_adds_no_overflow (maxFacts : Nat) :
    ∀ (adds : List (PyStr × PyStr)) (st : FactsManager.State) (fs0 : List Fact),
      FactsManager.load st.facts_file = fs0 →
      st.archive_file = .missing →
      fs0.length + adds.length ≤ maxFacts →
      ∃ st2, FactsManager.run_adds maxFacts st adds = .ok st2 ∧
        st2.archive_file = .missing ∧
        (FactsManager.load st2.facts_file).map Fact.id =
          fs0.map Fact.id ++
            (List.range adds.length).map (fun i => fid (fs0.length + 1 + i)) := by
  intro adds
  induction adds with
  | nil =>
    intro st fs0 hload harch _
    exact ⟨st, rfl, harch, by simp [hload]⟩
  | cons cs rest ih =>
    intro st fs0 hload harch hlen
    obtain ⟨c, s⟩ := cs
    have hnotover : ¬ ((fs0 ++
        [(⟨fid (fs0.length + 1), c, "immutable".toList, s, [], []⟩ : Fact)]).length
          > maxFacts) := by
      simp only [List.length_append, List.length_cons, List.length_nil]
      simp only [List.length_cons] at hlen
      omega
    have hstep : FactsManager.add_fact maxFacts st c s "immutable".toList [] =
        .ok (⟨FactsManager.save (fs0 ++
            [⟨fid (fs0.length + 1), c, "immutable".toList, s, [], []⟩]),
          st.archive_file⟩, fid (fs0.length + 1)) := by
      unfold FactsManager.add_fact
      rw [hload]
      simp only [if_neg hnotover]
    have hlen2 : (fs0 ++
        [(⟨fid (fs0.length + 1), c, "immutable".toList, s, [], []⟩ : Fact)]).length +
          rest.length ≤ maxFacts := by
      simp only [List.length_append, List.length_cons, List.length_nil]
      simp only [List.length_cons] at hlen
      omega
    obtain ⟨st2, hrun, harch2, hids⟩ := ih
      ⟨FactsManager.save (fs0 ++
          [⟨fid (fs0.length + 1), c, "immutable".toList, s, [], []⟩]),
        st.archive_file⟩
      (fs0 ++ [⟨fid (fs0.length + 1), c, "immutable".toList, s, [], []⟩])
      rfl (by simpa using harch) hlen2
    refine ⟨st2, ?_, harch2, ?_⟩
    · simp only [FactsManager.run_adds, hstep, hrun]
    · rw [hids]
      simp only [List.map_append, List.map_cons, List.map_nil, List.length_append,
        List.length_cons, List.length_nil, List.append_assoc, List.singleton_append]
      congr 1
      simp only [List.range_succ_eq_map, List.map_cons, List.map_map]
      congr 1
      apply List.map_congr_left
      intro a _
      simp only [Function.comp_apply]
      congr 1
      omega

/-- The three-fact sequence that exhibits duplicate ids at
`max_facts = 1`. -/
def addsABC : List (PyStr × PyStr) :=
  [("a".toList, "s".toList), ("b".toList, "s".toList), ("c".toList, "s".toList)]

/-- The 51-fact sequence of the overflow boundary scenario. -/
def adds51 : List (PyStr × PyStr) :=
  (List.range 51).map (fun i => (digitsOf (i + 1), "s".toList))

/-- An entry that has left the `unresolved` state has its
`resolution_chapter` set. -/
def resolutionSet (f : Foreshadowing) : Prop :=
  f.status ≠ "unresolved".toList → f.resolution_chapter.isSome

theorem resolve_list_pres (fs_id chapter : PyStr) (note : Option PyStr) :
    ∀ l : List Foreshadowing, (∀ g ∈ l, resolutionSet g) →
      ∀ f ∈ ForeshadowingManager.resolve_list fs_id chapter note l, resolutionSet f := by
  intro l
  induction l with
  | nil => simp [ForeshadowingManager.resolve_list]
  | cons g rest ih =>
    intro hall f hf
    by_cases hid : g.id = fs_id
    · rw [ForeshadowingManager.resolve_list, if_pos hid] at hf
      rcases List.mem_cons.mp hf with heq | hmem
      · intro _
        rw [heq]
        rfl
      · exact hall f (List.mem_cons_of_mem g hmem)
    · rw [ForeshadowingManager.resolve_list, if_neg hid] at hf
      rcases List.mem_cons.mp hf with heq | hmem
      · exact heq ▸ hall g (List.mem_cons_self g rest)
      · exact ih (fun x hx => hall x (List.mem_cons_of_mem g hx)) f hmem

theorem abandon_list_pres (fs_id chapter : PyStr) (reason : Option PyStr) :
    ∀ l : List Foreshadowing, (∀ g ∈ l, resolutionSet g) →
      ∀ f ∈ ForeshadowingManager.abandon_list fs_id chapter reason l, resolutionSet f := by
  intro l
  induction l with
  | nil => simp [ForeshadowingManager.abandon_list]
  | cons g rest ih =>
    intro hall f hf
    by_cases hid : g.id = fs_id
    · rw [ForeshadowingManager.abandon_list, if_pos hid] at hf
      rcases List.mem_cons.mp hf with heq | hmem
      · intro _
        rw [heq]
        rfl
      · exact hall f (List.mem_cons_of_mem g hmem)
    · rw [ForeshadowingManager.abandon_list, if_neg hid] at hf
      rcases List.mem_cons.mp hf with heq | hmem
      · exact heq ▸ hall g (List.mem_cons_self g rest)
      · exact ih (fun x hx => hall x (List.mem_cons_of_mem g hx)) f hmem

/-- Every store mutation preserves the `resolution_chapter` invariant. -/
theorem apply_op_pres (op : ForeshadowingManager.Op) (file : JsonFile Foreshadowing)
    (h : ∀ f ∈ ForeshadowingManager.load file, resolutionSet f) :
    ∀ f ∈ ForeshadowingManager.load (ForeshadowingManager.apply_op file op),
      resolutionSet f := by
  cases op with
  | plant c ch t p tg =>
    intro f hf
    simp only [ForeshadowingManager.apply_op, ForeshadowingManager.plant_foreshadowing,
      ForeshadowingManager.save, ForeshadowingManager.load] at hf
    rcases List.mem_append.mp hf with hmem | hnew
    · exact h f hmem
    · intro hst
      rw [List.mem_singleton.mp hnew] at hst
      simp at hst
  | resolve i ch n =>
    intro f hf
    simp only [ForeshadowingManager.apply_op,
      ForeshadowingManager.resolve_foreshadowing, ForeshadowingManager.save,
      ForeshadowingManager.load] at hf
    exact resolve_list_pres i ch n _ h f hf
  | abandon i ch r =>
    intro f hf
    simp only [ForeshadowingManager.apply_op,
      ForeshadowingManager.abandon_foreshadowing, ForeshadowingManager.save,
      ForeshadowingManager.load] at hf
    exact abandon_list_pres i ch r _ h f hf

theorem run_ops_pres (ops : List ForeshadowingManager.Op) :
    ∀ file : JsonFile Foreshadowing,
      (∀ f ∈ ForeshadowingManager.load file, resolutionSet f) →
      ∀ f ∈ ForeshadowingManager.load (ForeshadowingManager.run_ops file ops),
        resolutionSet f := by
  induction ops with
  | nil => intro file h; exact h
  | cons op rest ih =>
    intro file h
    exact ih (ForeshadowingManager.apply_op file op) (apply_op_pres op file h)

/-- The op sequence that drives an entry out of a terminal state:
plant, abandon, then resolve the same id. -/
def opsC3 : List ForeshadowingManager.Op :=
  [.plant "p".toList "chapter_001".toList none "medium".toList [],
   .abandon "fs001".toList "chapter_002".toList none,
   .resolve "fs001".toList "chapter_003".toList none]

/-- The record produced by `opsC3` (used by the C3 witness). -/
def fsRecC3 : Foreshadowing :=
  ⟨"fs001".toList, "p".toList, "resolved".toList, "chapter_001".toList, none,
    ["chapter_001".toList, "chapter_003".toList], some "chapter_003".toList,
    some [], "medium".toList, []⟩

/-! ## Claims -/

/-- C10: if `memory/facts.json` exists but holds invalid JSON,
`FactsManager.load` returns the empty list instead of raising, so the
next `add_fact` assigns id `f001` and overwrites the file on save: the
store silently restarts from empty. -/
theorem C10_invalid_file_restarts (arch : JsonFile Fact) (content source : PyStr)
    (maxFacts : Nat) (h : 1 ≤ maxFacts) :
    FactsManager.load .invalid = [] ∧
    fid 1 = "f001".toList ∧
    FactsManager.add_fact maxFacts ⟨.invalid, arch⟩ content source
        "immutable".toList [] =
      .ok (⟨.valid [⟨fid 1, content, "immutable".toList, source, [], []⟩], arch⟩,
        fid 1) := by
  refine ⟨rfl, rfl, ?_⟩
  unfold FactsManager.add_fact
  simp only [FactsManager.load, List.length_nil, List.nil_append, Nat.zero_add,
    List.length_cons, FactsManager.save]
  rw [if_neg (by omega)]

/-- Witness for C10 at `max_facts = 50`. -/
theorem C10_witness :
    FactsManager.load .invalid = [] ∧
    fid 1 = "f001".toList ∧
    FactsManager.add_fact 50 ⟨.invalid, .missing⟩ "a".toList "s".toList
        "immutable".toList [] =
      .ok (⟨.valid [⟨fid 1, "a".toList, "immutable".toList, "s".toList, [], []⟩],
        .missing⟩, fid 1) :=
  C10_invalid_file_restarts .missing "a".toList "s".toList 50 (by decide)

/-- C7: with `max_facts = 50`, 50 `add_fact` calls trigger no archive;
the 51st leaves exactly 50 facts in the main store and moves exactly the
first-added fact into the archive file. -/
theorem C7_overflow_boundary :
    (FactsManager.stateAfter
        (FactsManager.run_adds 50 FactsManager.emptyState (adds51.take 50))).archive_file
      = .missing ∧
    (FactsManager.load
        (FactsManager.stateAfter
          (FactsManager.run_adds 50 FactsManager.emptyState adds51)).facts_file).length
      = 50 ∧
    (FactsManager.stateAfter
        (FactsManager.run_adds 50 FactsManager.emptyState adds51)).archive_file
      = .valid [⟨fid 1, digitsOf 1, "immutable".toList, "s".toList, [], []⟩] := by
  refine ⟨by decide, by decide, by decide⟩

/-- C2 counterexample: with `max_facts = 1`, three `add_fact` calls
yield ids `f001, f002` in the archive and `f002` in the main store, so
the ids across the main store and the archive are not pairwise
distinct. -/
theorem C2_counterexample :
    ¬ ((FactsManager.load
          (FactsManager.stateAfter
            (FactsManager.run_adds 1 FactsManager.emptyState addsABC)).facts_file ++
        FactsManager.load
          (FactsManager.stateAfter
            (FactsManager.run_adds 1 FactsManager.emptyState addsABC)).archive_file).map
        Fact.id).Nodup := by
  decide

/-- C2 (amended): as long as the store never overflows (at most
`max_facts` adds from an empty store, `max_facts ≥ 1`), the archive
stays absent and the fact ids are pairwise distinct, assigned
monotonically as `f001, f002, …` with assignment order matching array
order.  Once the store overflows, ids are derived from the trimmed
main-store length and repeat. -/
theorem C2_ids_unique_until_overflow (maxFacts : Nat)
    (adds : List (PyStr × PyStr)) (_h1 : 1 ≤ maxFacts)
    (h2 : adds.length ≤ maxFacts) :
    ∃ st2, FactsManager.run_adds maxFacts FactsManager.emptyState adds = .ok st2 ∧
      st2.archive_file = .missing ∧
      FactsManager.load st2.archive_file = [] ∧
      (FactsManager.load st2.facts_file).map Fact.id =
        (List.range adds.length).map (fun i => fid (i + 1)) ∧
      ((FactsManager.load st2.facts_file).map Fact.id).Nodup := by
  obtain ⟨st2, hrun, harch, hids⟩ :=
    run_adds_no_overflow maxFacts adds FactsManager.emptyState [] rfl rfl
      (by simpa using h2)
  have hids2 : (FactsManager.load st2.facts_file).map Fact.id =
      (List.range adds.length).map (fun i => fid (i + 1)) := by
    rw [hids]
    simp only [List.map_nil, List.nil_append, List.length_nil]
    apply List.map_congr_left
    intro a _
    congr 1
    omega
  refine ⟨st2, hrun, harch, by rw [harch]; rfl, hids2, ?_⟩
  rw [hids2]
  exact (List.nodup_range _).map
    (fun a b hab => by
      have := fid_injective hab
      omega)

/-- Witness for the amended C2 at `max_facts = 2` with two adds. -/
theorem C2_witness :
    ∃ st2, FactsManager.run_adds 2 FactsManager.emptyState (addsABC.take 2) = .ok st2 ∧
      st2.archive_file = .missing ∧
      FactsManager.load st2.archive_file = [] ∧
      (FactsManager.load st2.facts_file).map Fact.id =
        (List.range (addsABC.take 2).length).map (fun i => fid (i + 1)) ∧
      ((FactsManager.load st2.facts_file).map Fact.id).Nodup :=
  C2_ids_unique_until_overflow 2 (addsABC.take 2) (by decide) (by decide)

/-- C3 counterexample: plant `fs001`, abandon it in chapter 2, then
resolve it in chapter 3.  The abandoned (terminal, per the claim) entry
changes status again, to `resolved`. -/
theorem C3_counterexample :
    (ForeshadowingManager.load
        (ForeshadowingManager.run_ops .missing (opsC3.take 2))).map
        Foreshadowing.status = ["abandoned".toList] ∧
    (ForeshadowingManager.load
        (ForeshadowingManager.run_ops .missing opsC3)).map
        Foreshadowing.status = ["resolved".toList] := by
  refine ⟨by decide, by decide⟩

/-- C3 (amended): for every sequence of plant, resolve and abandon
operations from an empty store, every entry that has left the
`unresolved` state has `resolution_chapter` set (non-null); however,
`resolve_foreshadowing` and `abandon_foreshadowing` do not check the
current status, so a `resolved` or `abandoned` entry can change status
again (an abandoned entry can later be marked resolved). -/
theorem C3_resolution_chapter_set (ops : List ForeshadowingManager.Op)
    (f : Foreshadowing)
    (hmem : f ∈ ForeshadowingManager.load (ForeshadowingManager.run_ops .missing ops))
    (hst : f.status ≠ "unresolved".toList) :
    f.resolution_chapter.isSome :=
  run_ops_pres ops .missing (by intro g hg; cases hg) f hmem hst

/-- Witness for the amended C3 on the concrete `opsC3` run. -/
theorem C3_witness : fsRecC3.resolution_chapter.isSome :=
  C3_resolution_chapter_set opsC3 fsRecC3 (by decide) (by decide)

/-- A fixed timestamp standing in for `datetime.now()`. -/
def tsDemo : PyStr := "T".toList

/-- A scene summary used by the concrete episodic runs. -/
def summDemo : PyStr := "0123456789ab".toList

/-- C4: with `max_scenes = 1`, two `add_scene_summary` calls leave an
episodic document with 2 scene blocks.  `_trim_scenes` splits on
`\n### Scene \d+`, so the newest block (whose header sits at position 0
without a preceding newline) is counted as the preamble, and the
document retains up to `max_scenes + 1` blocks, contradicting the claim
and the docstring of the method (keep only the last N scenes). -/
theorem C4_two_blocks_at_max_one :
    EpisodicMemoryManager.countBlocks
        (EpisodicMemoryManager.add_scene_summary 1
          (EpisodicMemoryManager.add_scene_summary 1 [] 1 1 summDemo none [] tsDemo)
          1 2 summDemo none [] tsDemo) = 2 := by
  decide

/-- The SceneSpec with a `narrative` section and no `narrary` key, as
every well-formed director output has. -/
def specC1 : SceneSpec := [("narrative".toList, ⟨[], none, [], []⟩)]

/-- The fresh memory state used by the C1 run. -/
def memC1 : CommitterAgent.MemState := ⟨[], FactsManager.emptyState, .missing⟩

/-- C1: `CommitterAgent.commit` on a scenespec that contains a
`narrative` section raises `KeyError("narrary")` (the source subscripts
the misspelled key) instead of returning a commit report; no memory is
updated. -/
theorem C1_commit_raises_keyerror :
    CommitterAgent.commit memC1 "abc".toList 1 1 (some specC1) tsDemo =
      .error (.keyError "narrary".toList, memC1) := by
  rfl

/-- The stage-4 issue dicts are non-empty exactly when some issue has
severity `error` or `warning`. -/
theorem errWarnDicts_ne_nil_iff (issues : List SwarmPipeline.Issue) :
    SwarmPipeline.errWarnDicts issues ≠ [] ↔
      ∃ i ∈ issues, i.severity = "error".toList ∨ i.severity = "warning".toList := by
  unfold SwarmPipeline.errWarnDicts
  rw [ne_eq, List.map_eq_nil_iff, List.filter_eq_nil_iff]
  push_neg
  simp only [decide_eq_true_eq]

/-- Behaviour of stage 4 with revision enabled: the editor runs exactly
once on the writer text when an error-or-warning issue exists, and not
at all otherwise. -/
theorem stage4_spec (wtext : PyStr) (issues : List SwarmPipeline.Issue)
    (edit : PyStr → List SwarmPipeline.IssueDict → PyStr) :
    ((∃ i ∈ issues, i.severity = "error".toList ∨ i.severity = "warning".toList) →
      SwarmPipeline.stage4 true wtext issues edit =
        (edit wtext (SwarmPipeline.errWarnDicts issues), true,
          [(wtext, SwarmPipeline.errWarnDicts issues)])) ∧
    ((¬ ∃ i ∈ issues, i.severity = "error".toList ∨ i.severity = "warning".toList) →
      SwarmPipeline.stage4 true wtext issues edit = (wtext, false, [])) := by
  constructor
  · intro hex
    have hne : SwarmPipeline.errWarnDicts issues ≠ [] :=
      (errWarnDicts_ne_nil_iff issues).mpr hex
    have hiss : issues ≠ [] := by
      rcases hex with ⟨i, hi, _⟩
      exact List.ne_nil_of_mem hi
    unfold SwarmPipeline.stage4
    rw [if_pos ⟨hiss, rfl, List.length_pos.mpr hiss⟩, if_pos hne]
  · intro hnex
    have hnil : SwarmPipeline.errWarnDicts issues = [] := by
      by_contra hne
      exact hnex ((errWarnDicts_ne_nil_iff issues).mp hne)
    unfold SwarmPipeline.stage4
    by_cases hiss : issues = []
    · rw [if_neg]
      intro hcond
      exact hcond.1 hiss
    · rw [if_pos ⟨hiss, rfl, List.length_pos.mpr hiss⟩, if_neg]
      intro hcond
      exact hcond hnil

/-- C5: in every `generate_scene` run with revision enabled whose writer
stage succeeds, if the checker reports at least one issue of severity
`error` or `warning` then the editor is invoked exactly once on the
writer text, its output becomes the text committed and persisted, and
the checker is not re-run; otherwise the editor is not invoked and the
writer text is used unchanged. -/
theorem C5_revision_policy (st : SwarmPipeline.ProjState) (chapter scene : Nat)
    (spec : SceneSpec) (wtext : PyStr) (issues : List SwarmPipeline.Issue)
    (edit : PyStr → List SwarmPipeline.IssueDict → PyStr) (ts : PyStr)
    (tr : SwarmPipeline.RunTrace)
    (htr : tr = SwarmPipeline.generate_scene true st chapter scene spec (.ok wtext)
      issues edit ts) :
    ((∃ i ∈ issues, i.severity = "error".toList ∨ i.severity = "warning".toList) →
      tr.editor_calls = [(wtext, SwarmPipeline.errWarnDicts issues)] ∧
      tr.text_after_stage4 =
        some (edit wtext (SwarmPipeline.errWarnDicts issues)) ∧
      tr.checker_calls = 1) ∧
    ((¬ ∃ i ∈ issues, i.severity = "error".toList ∨ i.severity = "warning".toList) →
      tr.editor_calls = [] ∧ tr.text_after_stage4 = some wtext ∧
      tr.checker_calls = 1) := by
  subst htr
  constructor
  · intro hex
    have hs4 := (stage4_spec wtext issues edit).1 hex
    simp only [SwarmPipeline.generate_scene, hs4]
    cases hc : CommitterAgent.commit st.mem
        (edit wtext (SwarmPipeline.errWarnDicts issues)) chapter scene (some spec)
        ts with
    | error e =>
      obtain ⟨e1, e2⟩ := e
      simp
    | ok v =>
      obtain ⟨mem2, report⟩ := v
      simp
  · intro hnex
    have hs4 := (stage4_spec wtext issues edit).2 hnex
    simp only [SwarmPipeline.generate_scene, hs4]
    cases hc : CommitterAgent.commit st.mem wtext chapter scene (some spec) ts with
    | error e =>
      obtain ⟨e1, e2⟩ := e
      simp
    | ok v =>
      obtain ⟨mem2, report⟩ := v
      simp

/-- The empty project state used by the pipeline witnesses. -/
def stDemo : SwarmPipeline.ProjState := ⟨⟨[], FactsManager.emptyState, .missing⟩, [], 1⟩

/-- A checker issue of severity `error`. -/
def issueDemo : SwarmPipeline.Issue :=
  ⟨"character".toList, "error".toList, "bad".toList⟩

/-- A concrete editor that appends a marker to the text. -/
def editDemo (t : PyStr) (_ : List SwarmPipeline.IssueDict) : PyStr := t ++ "e".toList

/-- Witness for C5: a run with one `error` issue. -/
theorem C5_witness :
    (SwarmPipeline.generate_scene true stDemo 1 1 [] (.ok "w".toList) [issueDemo]
        editDemo tsDemo).editor_calls =
      [("w".toList, SwarmPipeline.errWarnDicts [issueDemo])] ∧
    (SwarmPipeline.generate_scene true stDemo 1 1 [] (.ok "w".toList) [issueDemo]
        editDemo tsDemo).text_after_stage4 =
      some (editDemo "w".toList (SwarmPipeline.errWarnDicts [issueDemo])) ∧
    (SwarmPipeline.generate_scene true stDemo 1 1 [] (.ok "w".toList) [issueDemo]
        editDemo tsDemo).checker_calls = 1 :=
  (C5_revision_policy stDemo 1 1 [] "w".toList [issueDemo] editDemo tsDemo _ rfl).1
    (by decide)

theorem assocGet_assocSet (l : List (Nat × PyStr)) (c : Nat) (t : PyStr) :
    SwarmPipeline.assocGet (SwarmPipeline.assocSet l c t) c = some t := by
  induction l with
  | nil => simp [SwarmPipeline.assocSet, SwarmPipeline.assocGet]
  | cons p rest ih =>
    obtain ⟨k, v⟩ := p
    by_cases hk : k = c
    · simp [SwarmPipeline.assocSet, SwarmPipeline.assocGet, hk]
    · simp [SwarmPipeline.assocSet, SwarmPipeline.assocGet, hk, ih]

theorem digitChar_ne_nl (d : Nat) : digitChar d ≠ '\n' := by
  unfold digitChar
  split <;> decide

theorem digitsOfAux_ne_nl (fuel : Nat) :
    ∀ n ch, ch ∈ digitsOfAux fuel n → ch ≠ '\n' := by
  induction fuel with
  | zero =>
    intro n ch hch
    rw [List.mem_singleton.mp hch]
    exact digitChar_ne_nl n
  | succ fuel ih =>
    intro n ch hch
    by_cases h10 : n < 10
    · rw [digitsOfAux, if_pos h10] at hch
      rw [List.mem_singleton.mp hch]
      exact digitChar_ne_nl n
    · rw [digitsOfAux, if_neg h10] at hch
      rcases List.mem_append.mp hch with hmem | hmem
      · exact ih _ ch hmem
      · rw [List.mem_singleton.mp hmem]
        exact digitChar_ne_nl _

theorem digitsOf_ne_nl (n : Nat) : ∀ ch ∈ digitsOf n, ch ≠ '\n' :=
  fun ch h => digitsOfAux_ne_nl n n ch h

theorem sceneHeader_ne_nl (c s : Nat) :
    ∀ ch ∈ EpisodicMemoryManager.sceneHeader c s, ch ≠ '\n' := by
  intro ch hch
  unfold EpisodicMemoryManager.sceneHeader at hch
  rcases List.mem_append.mp hch with h4 | h5
  · rcases List.mem_append.mp h4 with h3 | hdc
    · rcases List.mem_append.mp h3 with h2 | hlit
      · rcases List.mem_append.mp h2 with hsh | hds
        · exact (by decide :
            ∀ ch2 ∈ EpisodicMemoryManager.sceneHead, ch2 ≠ '\n') ch hsh
        · exact digitsOf_ne_nl s ch hds
      · exact (by decide : ∀ ch2 ∈ " (Chapter ".toList, ch2 ≠ '\n') ch hlit
    · exact digitsOf_ne_nl c ch hdc
  · exact (by decide : ∀ ch2 ∈ ")".toList, ch2 ≠ '\n') ch h5

theorem sepAt_cons_ne (c : Char) (cs : List Char) (h : c ≠ '\n') :
    EpisodicMemoryManager.sepAt (c :: cs) = false := by
  simp [EpisodicMemoryManager.sepAt, h]

/-- A match of the trim separator cannot begin inside a newline-free
prefix: the match index is at least the prefix length. -/
theorem findSep_ge (hdr : PyStr) :
    ∀ (s : PyStr) (i : Nat), hdr <+: s → (∀ ch ∈ hdr, ch ≠ '\n') →
      EpisodicMemoryManager.findSep s = some i → hdr.length ≤ i := by
  induction hdr with
  | nil => intro s i _ _ _; exact Nat.zero_le i
  | cons h hs ih =>
    intro s i hpre hnl hfind
    cases s with
    | nil => simp at hpre
    | cons c s' =>
      obtain ⟨hc, hpre'⟩ := List.cons_prefix_cons.mp hpre
      have hcne : c ≠ '\n' := hc ▸ hnl h (List.mem_cons_self h hs)
      rw [EpisodicMemoryManager.findSep, if_neg (by simp [sepAt_cons_ne c s' hcne])]
        at hfind
      obtain ⟨i', hfind', hi⟩ := Option.map_eq_some'.mp hfind
      have := ih s' i' hpre' (fun ch hch => hnl ch (List.mem_cons_of_mem h hch)) hfind'
      simp only [List.length_cons]
      omega

/-- The first part of the scene split is the whole document or the
prefix up to the first separator match. -/
theorem splitScenes_head (s : PyStr) :
    (EpisodicMemoryManager.splitScenes s).headD [] = s ∨
      ∃ i, EpisodicMemoryManager.findSep s = some i ∧
        (EpisodicMemoryManager.splitScenes s).headD [] = s.take i := by
  unfold EpisodicMemoryManager.splitScenes
  cases hlen : s.length with
  | zero => left; rfl
  | succ n =>
    cases hf : EpisodicMemoryManager.findSep s with
    | none => left; simp [EpisodicMemoryManager.splitScenesAux, hf]
    | some i =>
      right
      exact ⟨i, rfl, by simp [EpisodicMemoryManager.splitScenesAux, hf]⟩

theorem foldl_acc_pref {α : Type} (f : PyStr → α → PyStr)
    (hf : ∀ acc x, acc <+: f acc x) :
    ∀ (l : List α) (acc : PyStr), acc <+: List.foldl f acc l := by
  intro l
  induction l with
  | nil => intro acc; exact List.prefix_refl acc
  | cons x rest ih => intro acc; exact (hf acc x).trans (ih (f acc x))

/-- `_trim_scenes` preserves any newline-free prefix of its input (in
particular the newest scene header, which sits at position 0). -/
theorem trim_scenes_pref (maxS : Nat) (content hdr : PyStr)
    (hpre : hdr <+: content) (hnl : ∀ ch ∈ hdr, ch ≠ '\n') :
    hdr <+: EpisodicMemoryManager.trim_scenes maxS content := by
  unfold EpisodicMemoryManager.trim_scenes
  split
  · exact hpre
  · have hhead : hdr <+: (EpisodicMemoryManager.splitScenes content).headD [] := by
      rcases splitScenes_head content with h | ⟨i, hfind, h⟩
      · rw [h]; exact hpre
      · rw [h]
        have hle : hdr.length ≤ i := findSep_ge hdr content i hpre hnl hfind
        have h1 : hdr = content.take hdr.length := List.prefix_iff_eq_take.mp hpre
        have h2 : content.take hdr.length = (content.take i).take hdr.length := by
          rw [List.take_take, min_eq_left hle]
        rw [h1, h2]
        exact List.take_prefix _ _
    exact hhead.trans (foldl_acc_pref _
      (fun acc x => by
        split
        · simp only [List.append_assoc]
          exact List.prefix_append acc _
        · exact List.prefix_refl acc) _ _)

/-- `add_scene_summary` always yields a document that starts with the
header line of the scene just added. -/
theorem add_scene_summary_header (maxS : Nat) (doc : PyStr) (c s : Nat)
    (summary : PyStr) (pov : Option PyStr) (kev : List PyStr) (ts : PyStr) :
    EpisodicMemoryManager.sceneHeader c s <+:
      EpisodicMemoryManager.add_scene_summary maxS doc c s summary pov kev ts := by
  unfold EpisodicMemoryManager.add_scene_summary
  apply trim_scenes_pref
  · have hjoin : ∀ rest : List PyStr,
        EpisodicMemoryManager.sceneHeader c s <+:
          joinNL (EpisodicMemoryManager.sceneHeader c s ::
            ("**Time**: ".toList ++ ts) :: rest) := by
      intro rest
      rw [joinNL]
      exact List.prefix_append _ _
    simp only [List.cons_append, List.nil_append]
    split
    · exact (hjoin _).trans (List.prefix_append _ _)
    · exact hjoin _
  · exact sceneHeader_ne_nl c s

/-- The shape of a successful commit: the episodic document is the one
produced by `add_scene_summary` for this chapter and scene, and the
foreshadowing store carries exactly the SceneSpec-driven transitions. -/
theorem commit_ok_shape (mem : CommitterAgent.MemState) (text : PyStr)
    (chapter scene : Nat) (spec : SceneSpec) (ts : PyStr)
    (mem2 : CommitterAgent.MemState) (rep : CommitterAgent.CommitReport)
    (h : CommitterAgent.commit mem text chapter scene (some spec) ts =
      .ok (mem2, rep)) :
    (∃ summary pov kev, mem2.episodic =
      EpisodicMemoryManager.add_scene_summary 5 mem.episodic chapter scene summary
        pov kev ts) ∧
    mem2.foreshadow =
      (CommitterAgent.apply_continuity mem.foreshadow spec (chapTag chapter)).1 := by
  unfold CommitterAgent.commit at h
  cases hke : CommitterAgent.key_events_of (some spec) with
  | error e =>
    rw [hke] at h
    simp at h
  | ok kev =>
    rw [hke] at h
    simp only at h
    cases hfl : CommitterAgent.add_fact_loop 50 mem.facts (chapTag chapter)
        (FactsManager.extract_facts_from_text text (chapTag chapter)) with
    | error e2 =>
      rw [hfl] at h
      simp at h
    | ok v =>
      obtain ⟨facts2, ids⟩ := v
      rw [hfl] at h
      simp only [Except.ok.injEq, Prod.mk.injEq] at h
      obtain ⟨hmem, _⟩ := h
      constructor
      · exact ⟨_, _, _, congrArg CommitterAgent.MemState.episodic hmem.symm⟩
      · exact (congrArg CommitterAgent.MemState.foreshadow hmem.symm)

/-- C6: in every run of `generate_scene` that reaches the commit stage,
the committer's memory updates happen before the chapter file is
written and the scene counter is advanced only after the commit: a
committer exception leaves the chapter files and the scene counter
untouched, and a successful run performs commit, chapter write and
counter advance in that order, ending in a state whose chapter file
holds the final text, whose episodic document starts with the recap
block of this chapter and scene, and whose foreshadowing store carries
exactly the SceneSpec-driven transitions. -/
theorem C6_memory_before_chapter (enable : Bool) (st : SwarmPipeline.ProjState)
    (chapter scene : Nat) (spec : SceneSpec) (wtext : PyStr)
    (issues : List SwarmPipeline.Issue)
    (edit : PyStr → List SwarmPipeline.IssueDict → PyStr) (ts : PyStr)
    (tr : SwarmPipeline.RunTrace)
    (htr : tr = SwarmPipeline.generate_scene enable st chapter scene spec
      (.ok wtext) issues edit ts) :
    (∀ e st2, tr.outcome = .commit_failed e st2 →
      st2.chapters = st.chapters ∧ st2.current_scene = st.current_scene) ∧
    (∀ st2 rep, tr.outcome = .ok st2 rep →
      tr.events = [.commit_memory, .write_chapter chapter, .advance_scene] ∧
      SwarmPipeline.assocGet st2.chapters chapter = tr.text_after_stage4 ∧
      EpisodicMemoryManager.sceneHeader chapter scene <+: st2.mem.episodic ∧
      st2.mem.foreshadow =
        (CommitterAgent.apply_continuity st.mem.foreshadow spec
          (chapTag chapter)).1 ∧
      st2.current_scene = scene + 1) := by
  subst htr
  simp only [SwarmPipeline.generate_scene]
  cases hc : CommitterAgent.commit st.mem
      (SwarmPipeline.stage4 enable wtext issues edit).1 chapter scene (some spec)
      ts with
  | error err =>
    obtain ⟨e0, mem2⟩ := err
    constructor
    · intro e st2 hout
      simp only [SwarmPipeline.Outcome.commit_failed.injEq] at hout
      rw [← hout.2]
      exact ⟨rfl, rfl⟩
    · intro st2 rep hout
      simp at hout
  | ok v =>
    obtain ⟨mem2, report⟩ := v
    constructor
    · intro e st2 hout
      simp at hout
    · intro st2 rep hout
      simp only [SwarmPipeline.Outcome.ok.injEq] at hout
      obtain ⟨hst2, _⟩ := hout
      obtain ⟨⟨summary, pov, kev, hepi⟩, hfs⟩ :=
        commit_ok_shape st.mem _ chapter scene spec ts mem2 report hc
      refine ⟨rfl, ?_, ?_, ?_, ?_⟩
      · rw [← hst2]
        exact assocGet_assocSet st.chapters chapter _
      · rw [← hst2]
        dsimp only
        rw [hepi]
        exact add_scene_summary_header 5 st.mem.episodic chapter scene summary pov
          kev ts
      · rw [← hst2]
        exact hfs
      · rw [← hst2]

/-- Witness for C6: a successful concrete run. -/
theorem C6_witness :
    (SwarmPipeline.generate_scene true stDemo 1 1 [] (.ok "w".toList) [] editDemo
        tsDemo).events =
      [.commit_memory, .write_chapter 1, .advance_scene] := by
  have h := (C6_memory_before_chapter true stDemo 1 1 [] "w".toList [] editDemo
    tsDemo _ rfl).2
    (SwarmPipeline.okState (SwarmPipeline.generate_scene true stDemo 1 1 []
      (.ok "w".toList) [] editDemo tsDemo).outcome)
    (SwarmPipeline.okReport (SwarmPipeline.generate_scene true stDemo 1 1 []
      (.ok "w".toList) [] editDemo tsDemo).outcome)
    (by decide)
  exact h.1

theorem joinNL_append_single (l : List PyStr) (x : PyStr) (h : l ≠ []) :
    joinNL (l ++ [x]) = joinNL l ++ '\n' :: x := by
  induction l with
  | nil => cases h rfl
  | cons a rest ih =>
    cases rest with
    | nil => simp [joinNL]
    | cons b rest2 =>
      have ih2 := ih (by simp)
      simp only [List.cons_append] at ih2 ⊢
      rw [joinNL, ih2, joinNL]
      simp [List.append_assoc]

theorem gffcLoop_len (maxChars : Nat) :
    ∀ (facts : List Fact) (lines : List PyStr) (cur : Nat),
      lines ≠ [] → (joinNL lines).length = cur → cur ≤ max 15 (maxChars + 1) →
      (joinNL (FactsManager.gffcLoop maxChars facts lines cur).1).length ≤
        max 15 (maxChars + 1) + 4 := by
  intro facts
  induction facts with
  | nil =>
    intro lines cur _ hj hb
    simp only [FactsManager.gffcLoop]
    omega
  | cons f rest ih =>
    intro lines cur hne hj hb
    rw [FactsManager.gffcLoop]
    split
    · next hcut =>
      rw [joinNL_append_single _ _ hne]
      simp only [List.length_append, List.length_cons]
      have : ("...".toList).length = 3 := by decide
      omega
    · next hfit =>
      apply ih
      · simp
      · rw [joinNL_append_single _ _ hne]
        simp only [List.length_append, List.length_cons]
        omega
      · have := Nat.le_max_right 15 (maxChars + 1)
        omega

theorem gffcLoop_cut (maxChars : Nat) :
    ∀ (facts : List Fact) (lines : List PyStr) (cur : Nat), lines ≠ [] →
      (FactsManager.gffcLoop maxChars facts lines cur).2 = true →
      ∃ pre, pre ≠ [] ∧
        (FactsManager.gffcLoop maxChars facts lines cur).1 = pre ++ ["...".toList] := by
  intro facts
  induction facts with
  | nil =>
    intro lines cur _ hcut
    simp [FactsManager.gffcLoop] at hcut
  | cons f rest ih =>
    intro lines cur hne hcut
    rw [FactsManager.gffcLoop] at hcut ⊢
    split at hcut
    · next h =>
      rw [if_pos h]
      exact ⟨lines, hne, rfl⟩
    · next h =>
      rw [if_neg h]
      exact ih _ _ (by simp) hcut

/-- C8 counterexample: an episodic document whose recap block exceeds
the byte budget 10: the cut summary is the 10-character prefix plus
`...`, 13 bytes. -/
def docC8 : PyStr := "### Scene 1\naaaaaaaaaaaaaaaaaaaa".toList

theorem C8_counterexample :
    ¬ (byteLen (EpisodicMemoryManager.get_recent_summary docC8 10) ≤ 10) := by
  decide

/-- C8 (amended): truncation is by character count, not bytes, and the
`...` marker and the facts header are not counted against the budget:
`get_recent_summary` returns at most `max_chars + 3` characters and a
cut summary is the `max_chars`-character prefix followed by `...`;
`get_facts_for_context` adds fact lines only while the running character
total stays within `max_chars` (so its result stays within
`max(header, max_chars + 1) + 4` characters) and a cut block ends with
`...`. -/
theorem C8_budget_amended :
    (∀ content maxChars,
      (EpisodicMemoryManager.get_recent_summary content maxChars).length ≤
        maxChars + 3) ∧
    (∀ content maxChars,
      (EpisodicMemoryManager.grsExtract content).length > maxChars →
      EpisodicMemoryManager.get_recent_summary content maxChars =
        (EpisodicMemoryManager.grsExtract content).take maxChars ++ "...".toList) ∧
    (∀ facts maxChars,
      (FactsManager.get_facts_for_context facts maxChars).length ≤
        max 15 (maxChars + 1) + 4) ∧
    (∀ facts maxChars,
      (FactsManager.gffcLoop maxChars facts ["## Facts（確定事実）".toList, []]
        (joinNL ["## Facts（確定事実）".toList, []]).length).2 = true →
      ∃ pre, FactsManager.get_facts_for_context facts maxChars =
        pre ++ '\n' :: "...".toList) := by
  refine ⟨?_, ?_, ?_, ?_⟩
  · intro content maxChars
    unfold EpisodicMemoryManager.get_recent_summary
    split
    · simp only [List.length_append, List.length_take]
      have : ("...".toList).length = 3 := by decide
      omega
    · next h =>
      omega
  · intro content maxChars h
    unfold EpisodicMemoryManager.get_recent_summary
    rw [if_pos h]
  · intro facts maxChars
    unfold FactsManager.get_facts_for_context
    apply gffcLoop_len maxChars facts _ _ (by simp) rfl
    have h15 : (joinNL ["## Facts（確定事実）".toList, []]).length = 15 := by decide
    rw [h15]
    exact Nat.le_max_left 15 (maxChars + 1)
  · intro facts maxChars hcut
    obtain ⟨pre, hpre, heq⟩ := gffcLoop_cut maxChars facts _ _ (by simp) hcut
    refine ⟨joinNL pre, ?_⟩
    unfold FactsManager.get_facts_for_context
    rw [heq, joinNL_append_single _ _ hpre]

/-- A fact whose bullet line overflows a budget of 3. -/
def factC8 : Fact := ⟨fid 1, "x".toList, "immutable".toList, "s".toList, [], []⟩

/-- Witness for the amended C8 at concrete inputs that trigger both
truncation paths. -/
theorem C8_witness :
    EpisodicMemoryManager.get_recent_summary docC8 10 =
      (EpisodicMemoryManager.grsExtract docC8).take 10 ++ "...".toList ∧
    ∃ pre, FactsManager.get_facts_for_context [factC8] 3 =
      pre ++ '\n' :: "...".toList :=
  ⟨C8_budget_amended.2.1 docC8 10 (by decide),
    C8_budget_amended.2.2.2 [factC8] 3 (by decide)⟩

section RetrieverLemmas

open SimpleEmbedding

theorem assocFind_mem {κ α : Type} [DecidableEq κ] :
    ∀ (l : List (κ × α)) (k : κ) (x : α), assocFind l k = some x → (k, x) ∈ l := by
  intro l
  induction l with
  | nil => intro k x h; simp [assocFind] at h
  | cons p rest ih =>
    intro k x h
    obtain ⟨k0, v0⟩ := p
    rw [assocFind] at h
    by_cases hk : k0 = k
    · rw [if_pos hk] at h
      have hv : v0 = x := by injection h
      rw [← hk, ← hv]
      exact List.mem_cons_self _ _
    · rw [if_neg hk] at h
      exact List.mem_cons_of_mem _ (ih k x h)

/-- Where an element of `bump m t` comes from: an untouched entry of
`m`, the bumped entry for key `t`, or the fresh entry `(t, 1)`. -/
theorem bump_mem (m : List (Char × Nat)) (t : Char) :
    ∀ p ∈ bump m t,
      p ∈ m ∨ (∃ q ∈ m, q.1 = t ∧ p = (q.1, q.2 + 1)) ∨ p = (t, 1) := by
  induction m with
  | nil =>
    intro p hp
    simp only [bump, List.mem_singleton] at hp
    right; right; exact hp
  | cons q0 rest ih =>
    intro p hp
    obtain ⟨k, v⟩ := q0
    rw [bump] at hp
    by_cases hk : k = t
    · rw [if_pos hk] at hp
      rcases List.mem_cons.mp hp with heq | hmem
      · right; left; exact ⟨(k, v), List.mem_cons_self _ _, hk, heq⟩
      · left; exact List.mem_cons_of_mem _ hmem
    · rw [if_neg hk] at hp
      rcases List.mem_cons.mp hp with heq | hmem
      · left; exact heq ▸ List.mem_cons_self _ _
      · rcases ih p hmem with h | ⟨q, hq, h1, h2⟩ | h
        · left; exact List.mem_cons_of_mem _ h
        · right; left; exact ⟨q, List.mem_cons_of_mem _ hq, h1, h2⟩
        · right; right; exact h

/-- Folding `bump` over a duplicate-free token list increments every
count at most once. -/
theorem bump_fold_bound (k : Nat) :
    ∀ (u : List Char), u.Nodup →
      ∀ (m : List (Char × Nat)),
        (∀ p ∈ m, 1 ≤ p.2 ∧ (p.1 ∈ u → p.2 ≤ k) ∧ (p.1 ∉ u → p.2 ≤ k + 1)) →
        ∀ p ∈ u.foldl bump m, 1 ≤ p.2 ∧ p.2 ≤ k + 1 := by
  intro u
  induction u with
  | nil =>
    intro _ m hm p hp
    simp only [List.foldl_nil] at hp
    exact ⟨(hm p hp).1, (hm p hp).2.2 (by simp)⟩
  | cons t u2 ih =>
    intro hnd m hm p hp
    simp only [List.foldl_cons] at hp
    have hnd2 : u2.Nodup := (List.nodup_cons.mp hnd).2
    have htno : t ∉ u2 := (List.nodup_cons.mp hnd).1
    apply ih hnd2 (bump m t) _ p hp
    intro q hq
    rcases bump_mem m t q hq with hin | ⟨r, hr, hrt, hqe⟩ | hqe
    · obtain ⟨hq1, hq2, hq3⟩ := hm q hin
      refine ⟨hq1, fun hu => hq2 (List.mem_cons_of_mem t hu), fun hu => ?_⟩
      by_cases hqt : q.1 = t
      · exact Nat.le_succ_of_le (hq2 (hqt ▸ List.mem_cons_self t u2))
      · exact hq3 (by simp [hqt, hu])
    · obtain ⟨hr1, hr2, _⟩ := hm r hr
      subst hqe
      refine ⟨by omega, fun hu => ?_, fun _ => ?_⟩
      · rw [hrt] at hu
        exact absurd hu htno
      · have := hr2 (by rw [hrt]; exact List.mem_cons_self t u2)
        omega
    · subst hqe
      exact ⟨le_refl 1, fun hu => absurd hu htno, fun _ => by omega⟩

theorem doc_freq_fold_bound (al : Char → Bool) (lo : Char → Char) :
    ∀ (docs : List PyStr) (k : Nat) (m : List (Char × Nat)),
      (∀ p ∈ m, 1 ≤ p.2 ∧ p.2 ≤ k) →
      ∀ p ∈ docs.foldl (fun acc d => ((tokenize al lo d).dedup).foldl bump acc) m,
        1 ≤ p.2 ∧ p.2 ≤ k + docs.length := by
  intro docs
  induction docs with
  | nil =>
    intro k m hm p hp
    simp only [List.foldl_nil] at hp
    exact ⟨(hm p hp).1, by simpa using (hm p hp).2⟩
  | cons d rest ih =>
    intro k m hm p hp
    simp only [List.foldl_cons] at hp
    have hstep : ∀ q ∈ ((tokenize al lo d).dedup).foldl bump m,
        1 ≤ q.2 ∧ q.2 ≤ k + 1 :=
      bump_fold_bound k _ (List.nodup_dedup _) m
        (fun q hq => ⟨(hm q hq).1, fun _ => (hm q hq).2,
          fun _ => Nat.le_succ_of_le (hm q hq).2⟩)
    have hres := ih (k + 1) _ hstep p hp
    refine ⟨hres.1, ?_⟩
    have := hres.2
    simp only [List.length_cons]
    omega

/-- Every document-frequency count lies between 1 and the number of
documents. -/
theorem doc_freq_bound (al : Char → Bool) (lo : Char → Char) (docs : List PyStr) :
    ∀ p ∈ doc_freq al lo docs, 1 ≤ p.2 ∧ p.2 ≤ docs.length := by
  intro p hp
  have := doc_freq_fold_bound al lo docs 0 [] (by simp) p hp
  simpa using this

/-- `ln(n / (df + 1)) + 1 > 0` whenever `1 ≤ df ≤ n`: the fraction is at
least `1/2`, which exceeds `exp(-1)`. -/
theorem idf_val_pos (n df : Nat) (h1 : 1 ≤ df) (h2 : df ≤ n) : 0 < idf_val n df := by
  unfold idf_val
  have hn1 : (1 : ℝ) ≤ (n : ℝ) := by exact_mod_cast le_trans h1 h2
  have hdf1 : (0 : ℝ) < (df : ℝ) + 1 := by positivity
  have hx : (0 : ℝ) < (n : ℝ) / ((df : ℝ) + 1) := by positivity
  have hhalf : (1 : ℝ) / 2 ≤ (n : ℝ) / ((df : ℝ) + 1) := by
    rw [div_le_div_iff₀ (by norm_num) hdf1]
    have : (df : ℝ) ≤ (n : ℝ) := by exact_mod_cast h2
    linarith
  have hexp2 : (2 : ℝ) < Real.exp 1 := lt_trans (by norm_num) Real.exp_one_gt_d9
  have hexpneg : Real.exp (-1) < 1 / 2 := by
    rw [Real.exp_neg]
    rw [inv_lt_comm₀ (Real.exp_pos 1) (by norm_num)]
    simpa using hexp2
  have hkey : Real.exp (-1) < (n : ℝ) / ((df : ℝ) + 1) := lt_of_lt_of_le hexpneg hhalf
  have hlog := (Real.lt_log_iff_exp_lt hx).mpr hkey
  linarith

/-- Every weight `self.idf.get(token, 1.0)` of a fitted embedder is
positive: stored IDF values come from document frequencies between 1 and
the document count, and the miss default is 1. -/
theorem fit_weight_pos (al : Char → Bool) (lo : Char → Char) (vs : Nat)
    (docs : List PyStr) (t : Char) : 0 < weight (fit al lo vs docs).idf t := by
  unfold weight
  cases hf : assocFind (fit al lo vs docs).idf t with
  | none => simp
  | some x =>
    simp only [Option.getD_some]
    have hmem := assocFind_mem _ t x hf
    unfold fit idf_list at hmem
    simp only at hmem
    obtain ⟨p, hp, hpx⟩ := List.mem_filterMap.mp hmem
    by_cases hv : p.1 ∈ build_vocab al lo vs docs
    · rw [if_pos hv] at hpx
      have hx : x = idf_val docs.length p.2 := by
        have := (Prod.mk.injEq _ _ _ _).mp (Option.some.inj hpx)
        exact this.2.symm
      have hb := doc_freq_bound al lo docs p hp
      rw [hx]
      exact idf_val_pos docs.length p.2 hb.1 hb.2
    · rw [if_neg hv] at hpx
      simp at hpx

theorem vecStep_ge (vocab : List Char) (idf : List (Char × ℝ))
    (hw : ∀ t, 0 < weight idf t) (v : Nat → ℝ) (t : Char) (i : Nat) :
    v i ≤ vecStep vocab idf v t i := by
  unfold vecStep
  split
  · rw [Function.update_apply]
    split
    · next heq =>
      rw [heq]
      have := hw t
      linarith
    · exact le_refl _
  · exact le_refl _

theorem foldl_vecStep_ge (vocab : List Char) (idf : List (Char × ℝ))
    (hw : ∀ t, 0 < weight idf t) :
    ∀ (ts : List Char) (v : Nat → ℝ) (i : Nat),
      v i ≤ (ts.foldl (vecStep vocab idf) v) i := by
  intro ts
  induction ts with
  | nil => intro v i; exact le_refl _
  | cons t ts2 ih =>
    intro v i
    simp only [List.foldl_cons]
    exact le_trans (vecStep_ge vocab idf hw v t i) (ih (vecStep vocab idf v t) i)

theorem foldl_vecStep_nonneg (vocab : List Char) (idf : List (Char × ℝ))
    (hw : ∀ t, 0 < weight idf t) (ts : List Char) (v : Nat → ℝ)
    (hv : ∀ i, 0 ≤ v i) (i : Nat) : 0 ≤ (ts.foldl (vecStep vocab idf) v) i :=
  le_trans (hv i) (foldl_vecStep_ge vocab idf hw ts v i)

/-- The entry at the index of an in-vocabulary token that occurs in the
token list is at least that token's weight. -/
theorem foldl_vecStep_in (vocab : List Char) (idf : List (Char × ℝ))
    (hw : ∀ t, 0 < weight idf t) :
    ∀ (ts : List Char) (v : Nat → ℝ), (∀ i, 0 ≤ v i) →
      ∀ t0, t0 ∈ ts → t0 ∈ vocab →
        weight idf t0 ≤ (ts.foldl (vecStep vocab idf) v) (vocab.indexOf t0) := by
  intro ts
  induction ts with
  | nil => intro v _ t0 h; simp at h
  | cons t ts2 ih =>
    intro v hv t0 hmem hvoc
    simp only [List.foldl_cons]
    by_cases heq : t = t0
    · subst heq
      have h1 : weight idf t ≤ vecStep vocab idf v t (vocab.indexOf t) := by
        unfold vecStep
        rw [if_pos hvoc, Function.update_same]
        have := hv (vocab.indexOf t)
        linarith
      exact le_trans h1 (foldl_vecStep_ge vocab idf hw ts2 _ _)
    · have hmem2 : t0 ∈ ts2 := by
        rcases List.mem_cons.mp hmem with h | h
        · exact absurd h.symm heq
        · exact h
      exact ih (vecStep vocab idf v t)
        (fun i => le_trans (hv i) (vecStep_ge vocab idf hw v t i)) t0 hmem2 hvoc

/-- With no in-vocabulary token, the accumulation loop is the
identity. -/
theorem foldl_vecStep_none (vocab : List Char) (idf : List (Char × ℝ)) :
    ∀ (ts : List Char) (v : Nat → ℝ), (∀ t ∈ ts, t ∉ vocab) →
      ts.foldl (vecStep vocab idf) v = v := by
  intro ts
  induction ts with
  | nil => intro v _; rfl
  | cons t ts2 ih =>
    intro v hno
    simp only [List.foldl_cons]
    have hstep : vecStep vocab idf v t = v := by
      unfold vecStep
      rw [if_neg (hno t (List.mem_cons_self t ts2))]
    rw [hstep]
    exact ih v (fun x hx => hno x (List.mem_cons_of_mem t hx))

/-- The behavioural contract of `embed`: the norm of the produced vector
is 0 or 1, and it is 1 exactly when the text has an in-vocabulary
token. -/
theorem embed_spec (al : Char → Bool) (lo : Char → Char) (vocab : List Char)
    (idf : List (Char × ℝ)) (hw : ∀ t, 0 < weight idf t) (text : PyStr) :
    0 ≤ normOf (embed al lo vocab idf text) ∧
    normOf (embed al lo vocab idf text) ≤ 1 ∧
    (normOf (embed al lo vocab idf text) = 1 ↔
      ∃ t ∈ tokenize al lo text, t ∈ vocab) := by
  by_cases hex : ∃ t ∈ tokenize al lo text, t ∈ vocab
  · obtain ⟨t0, ht0, hv0⟩ := hex
    have hnn : ∀ i, 0 ≤ raw_vec vocab idf (tokenize al lo text) i :=
      foldl_vecStep_nonneg vocab idf hw _ _ (fun _ => le_refl 0)
    have hidx : vocab.indexOf t0 < vocab.length := List.indexOf_lt_length.mpr hv0
    have hentry : weight idf t0 ≤
        raw_vec vocab idf (tokenize al lo text) (vocab.indexOf t0) :=
      foldl_vecStep_in vocab idf hw _ _ (fun _ => le_refl 0) t0 ht0 hv0
    have hpos_entry : 0 < raw_vec vocab idf (tokenize al lo text) (vocab.indexOf t0) :=
      lt_of_lt_of_le (hw t0) hentry
    have hs_pos : 0 < sum_sq vocab.length (raw_vec vocab idf (tokenize al lo text)) := by
      unfold sum_sq
      have hterm : 0 < raw_vec vocab idf (tokenize al lo text) (vocab.indexOf t0) ^ 2 :=
        pow_pos hpos_entry 2
      have hle : raw_vec vocab idf (tokenize al lo text) (vocab.indexOf t0) ^ 2 ≤
          ∑ i ∈ Finset.range vocab.length,
            raw_vec vocab idf (tokenize al lo text) i ^ 2 :=
        @Finset.single_le_sum ℕ ℝ _
          (fun i => raw_vec vocab idf (tokenize al lo text) i ^ 2)
          (Finset.range vocab.length) (fun i _ => sq_nonneg _) (vocab.indexOf t0)
          (Finset.mem_range.mpr hidx)
      linarith
    have hn_pos : 0 <
        l2norm vocab.length (raw_vec vocab idf (tokenize al lo text)) :=
      Real.sqrt_pos.mpr hs_pos
    have hnorm1 : normOf (embed al lo vocab idf text) = 1 := by
      unfold embed
      rw [if_pos hn_pos]
      show Real.sqrt (sum_sq vocab.length (fun i =>
        raw_vec vocab idf (tokenize al lo text) i /
          l2norm vocab.length (raw_vec vocab idf (tokenize al lo text)))) = 1
      have hsum : sum_sq vocab.length (fun i =>
          raw_vec vocab idf (tokenize al lo text) i /
            l2norm vocab.length (raw_vec vocab idf (tokenize al lo text))) =
          sum_sq vocab.length (raw_vec vocab idf (tokenize al lo text)) /
            l2norm vocab.length (raw_vec vocab idf (tokenize al lo text)) ^ 2 := by
        unfold sum_sq
        rw [Finset.sum_div]
        exact Finset.sum_congr rfl (fun i _ => div_pow _ _ _)
      rw [hsum]
      unfold l2norm
      rw [Real.sq_sqrt (le_of_lt hs_pos), div_self (ne_of_gt hs_pos), Real.sqrt_one]
    rw [hnorm1]
    exact ⟨by norm_num, le_refl 1, by simp; exact ⟨t0, ht0, hv0⟩⟩
  · have hzero : raw_vec vocab idf (tokenize al lo text) = (fun _ => 0) :=
      foldl_vecStep_none vocab idf _ _
        (fun t ht hv => hex ⟨t, ht, hv⟩)
    have hs : sum_sq vocab.length (raw_vec vocab idf (tokenize al lo text)) = 0 := by
      rw [hzero]
      unfold sum_sq
      simp
    have hn : l2norm vocab.length (raw_vec vocab idf (tokenize al lo text)) = 0 := by
      unfold l2norm
      rw [hs, Real.sqrt_zero]
    have hnorm0 : normOf (embed al lo vocab idf text) = 0 := by
      unfold embed
      rw [if_neg (by rw [hn]; exact lt_irrefl 0)]
      show l2norm vocab.length (raw_vec vocab idf (tokenize al lo text)) = 0
      exact hn
    rw [hnorm0]
    refine ⟨le_refl 0, by norm_num, ?_⟩
    constructor
    · intro h01
      exact absurd h01 (by norm_num)
    · intro h
      exact absurd h hex

/-- C9: after `SimpleRetriever.build()` on a non-empty store, every
stored document's embedding has L2 norm in `[0, 1]`, and the norm is 1
exactly when the document contains at least one token of the fitted
vocabulary (`np.float64` arithmetic is modelled by exact reals). -/
theorem C9_embedding_norms (al : Char → Bool) (lo : Char → Char)
    (st : SimpleRetriever.RetrieverState) (d : SimpleRetriever.Document)
    (hne : st.documents ≠ [])
    (hd : d ∈ (SimpleRetriever.build al lo st).documents) :
    ∃ v, d.embedding = some v ∧ 0 ≤ normOf v ∧ normOf v ≤ 1 ∧
      (normOf v = 1 ↔ ∃ t ∈ tokenize al lo d.content,
        t ∈ (SimpleRetriever.build al lo st).embedder.vocab) := by
  have hcond : ¬ (st.documents.isEmpty = true) := by
    simpa [List.isEmpty_iff] using hne
  unfold SimpleRetriever.build at hd ⊢
  rw [if_neg hcond] at hd ⊢
  simp only [List.mem_map] at hd
  obtain ⟨d0, hd0, hfd⟩ := hd
  have hspec := embed_spec al lo
    (fit al lo st.embedder.vocab_size (st.documents.map (·.content))).vocab
    (fit al lo st.embedder.vocab_size (st.documents.map (·.content))).idf
    (fun t => fit_weight_pos al lo st.embedder.vocab_size
      (st.documents.map (·.content)) t) d0.content
  refine ⟨embed al lo
      (fit al lo st.embedder.vocab_size (st.documents.map (·.content))).vocab
      (fit al lo st.embedder.vocab_size (st.documents.map (·.content))).idf
      d0.content, ?_, ?_, ?_, ?_⟩
  · rw [← hfd]
  · exact hspec.1
  · exact hspec.2.1
  · rw [← hfd]
    exact hspec.2.2

end RetrieverLemmas

/-- A one-document retriever store used by the C9 witness. -/
def stC9 : SimpleRetriever.RetrieverState :=
  ⟨[⟨"d1".toList, "aa".toList, "s".toList, "bible".toList, none⟩],
    ⟨5000, [], [], 0⟩, false⟩

/-- The document stored after building `stC9` with the concrete Unicode
predicates. -/
noncomputable def dC9 : SimpleRetriever.Document :=
  (SimpleRetriever.build Char.isAlphanum Char.toLower stC9).documents.headD
    ⟨[], [], [], [], none⟩

/-- Witness for C9 on the one-document store. -/
theorem C9_witness :
    ∃ v, dC9.embedding = some v ∧ 0 ≤ SimpleEmbedding.normOf v ∧
      SimpleEmbedding.normOf v ≤ 1 ∧
      (SimpleEmbedding.normOf v = 1 ↔
        ∃ t ∈ SimpleEmbedding.tokenize Char.isAlphanum Char.toLower dC9.content,
          t ∈ (SimpleRetriever.build Char.isAlphanum Char.toLower
            stC9).embedder.vocab) :=
  C9_embedding_norms Char.isAlphanum Char.toLower stC9 dC9 (by simp [stC9])
    (by simp [dC9, SimpleRetriever.build, stC9])

end Novelist
